import Mathlib

/-!
Verification of the Lottery-Prediction frontend's result pipeline.

This file gives a shallow embedding of the data-transformation core of the
repository — the draw/feature query hooks (`useDraws.ts`,
`useEuromillonesFeatures.ts`, `useElGordoFeatures.ts`), the
`combinacion_acta` parsers (`ResultadosPage.tsx`), and the number-history
gap builder of the features panels — and proves or refutes the frozen
claims about them.

Conventions of the embedding:
- JS strings are Lean `String`s, usually processed as `List Char`.
- JS numbers that are known integers are `Nat`/`Int`; `NaN` is `none` of an
  `Option`.
- `null`/`undefined` are `Option.none`.
- A network fetch is modelled by passing in the `FetchOutcome` that the
  `await` would have produced; React `useState` cells become record fields
  and each hook function becomes a state transition returning the state
  after the async function has settled, together with a `Bool` that is
  `true` when a network request was issued.
-/

namespace Lottery

/-! ## JS character classes and numeric conversions -/

/-- JS regex `\d`: the ASCII digits. Stated on code points to ease arithmetic. -/
def isDigitChar (c : Char) : Bool := 48 ≤ c.toNat && c.toNat ≤ 57

/-- JS regex `\s`: whitespace, including the Unicode space separators that
V8 accepts. -/
def isSpaceChar (c : Char) : Bool :=
  [9, 10, 11, 12, 13, 32, 160, 5760, 8192, 8193, 8194, 8195, 8196, 8197,
   8198, 8199, 8200, 8201, 8202, 8232, 8233, 8239, 8287, 12288, 65279].contains c.toNat

/-- The separator class `[\s\-]` used by the `combinacion_acta` tokenizers. -/
def isSepChar (c : Char) : Bool := isSpaceChar c || c.toNat = 45

/-- Code point after JS `String.prototype.toLowerCase` restricted to ASCII,
as used by the `i` regex flag on the `C(...)`/`R(...)` patterns. -/
def lowerNat (c : Char) : Nat :=
  if 65 ≤ c.toNat ∧ c.toNat ≤ 90 then c.toNat + 32 else c.toNat

/-- Value of a list of ASCII digit characters, most significant first. -/
def digitsToNat (ds : List Char) : Nat :=
  ds.foldl (fun a c => 10 * a + (c.toNat - 48)) 0

/-- JS `parseInt(tok, 10)` on a token (`none` = `NaN`): optional sign, then
the maximal leading run of digits; no digits means `NaN`.  Tokens produced
by splitting on `[\s\-]+` carry no leading whitespace, so trimming is not
modelled. -/
def parseIntToken (t : List Char) : Option Int :=
  let core : List Char → Option Nat := fun u =>
    let ds := u.takeWhile isDigitChar
    if ds.isEmpty then none else some (digitsToNat ds)
  match t with
  | '+' :: rest => (core rest).map Int.ofNat
  | '-' :: rest => (core rest).map fun n => -(Int.ofNat n)
  | _ => (core t).map Int.ofNat

/-! ## Hook state models

`useDraws` (src/frontend/src/pages/resultados/useDraws.ts) and the three
near-identical feature hooks keep rows, a total, a skip offset, a loading
flag and an error string in `useState` cells.  `PAGE_SIZE` is 20
everywhere. -/

/-- A draw row; its payload is irrelevant to the claims, only identity matters. -/
structure Draw where
  id : Nat
deriving DecidableEq

/-- The settled result of one `fetch` + `res.json()` round trip.
`thrown` covers a rejected fetch or a `res.json()` failure; `isErr` records
whether the thrown value was an `instanceof Error` and `msg` its message.
`response` carries `res.ok`, the parsed JSON body, and `res.statusText`. -/
inductive FetchOutcome (β : Type) where
  | thrown (isErr : Bool) (msg : String)
  | response (ok : Bool) (body : β) (statusText : String)

/-- JSON body of `/api/draws`: the fields the hook reads.  `detail` is the
error-detail field FastAPI uses; `message` is modelled as well because the
spec talks about a `message` field. -/
structure DrawsBody where
  detail : Option String
  message : Option String
  draws : Option (List Draw)
  total : Option Nat

/-- State of `useDraws` after any number of operations. -/
structure DrawsHookState where
  fromInput : String
  toInput : String
  draws : List Draw
  total : Nat
  skip : Nat
  loading : Bool
  error : String
deriving DecidableEq

/-- One complete run of `fetchDraws` from `useDraws.ts` (lines 16-48):
the empty-lottery short circuit returns before `setLoading(true)`, every
other path sets `loading` for the duration and clears it in `finally`.
Returns the settled state and whether a network request was issued. -/
def fetchDraws (lottery : String) (st : DrawsHookState)
    (o : FetchOutcome DrawsBody) : DrawsHookState × Bool :=
  if lottery = "" then
    ({ st with draws := [], total := 0 }, false)
  else
    let st1 := { st with loading := true, error := "" }
    let st2 :=
      match o with
      | .thrown isErr msg =>
          { st1 with error := if isErr then msg else "Failed to load draws",
                     draws := [], total := 0 }
      | .response ok body statusText =>
          if ok then
            { st1 with draws := body.draws.getD [], total := body.total.getD 0 }
          else
            { st1 with error := body.detail.getD statusText,
                       draws := [], total := 0 }
    ({ st2 with loading := false }, true)

/-- JSON body of `/api/{lottery}/features`, generic over the row shape
(the three lotteries differ only in bonus fields, which the hook never
inspects). -/
structure FeaturesBody (ρ : Type) where
  detail : Option String
  message : Option String
  features : Option (List ρ)
  total : Option Nat

/-- State of a feature query hook (`useEuromillonesFeatures` /
`useElGordoFeatures` / the La Primitiva clone). -/
structure FeatureHookState (ρ : Type) where
  rows : List ρ
  total : Nat
  skip : Nat
  loading : Bool
  error : String

/-- One complete run of `fetchRows` from the feature hooks (e.g.
src/frontend/src/pages/resultados/useElGordoFeatures.ts lines 37-61);
`fallbackMsg` is the hook's catch-branch literal (they differ per
lottery). -/
def fetchRows {ρ : Type} (fallbackMsg : String) (st : FeatureHookState ρ)
    (o : FetchOutcome (FeaturesBody ρ)) : FeatureHookState ρ × Bool :=
  let st1 := { st with loading := true, error := "" }
  let st2 :=
    match o with
    | .thrown isErr msg =>
        { st1 with error := if isErr then msg else fallbackMsg,
                   rows := [], total := 0 }
    | .response ok body statusText =>
        if ok then
          { st1 with rows := body.features.getD [], total := body.total.getD 0 }
        else
          { st1 with error := body.detail.getD statusText,
                     rows := [], total := 0 }
  ({ st2 with loading := false }, true)

/-- Fixed page size shared by all hooks. -/
def PAGE_SIZE : Nat := 20

/-- `Math.ceil(total / PAGE_SIZE) || 1` on a natural `total`: for naturals
`Math.ceil (total / 20)` is `(total + 19) / 20`, and `|| 1` replaces a
falsy `0` by `1`. -/
def totalPages (total : Nat) : Nat :=
  let c := (total + (PAGE_SIZE - 1)) / PAGE_SIZE
  if c = 0 then 1 else c

/-- `Math.floor(skip / PAGE_SIZE) + 1`. -/
def currentPage (skip : Nat) : Nat := skip / PAGE_SIZE + 1

/-- `nextPage`: `setSkip(s => s + PAGE_SIZE)`. -/
def nextPage (skip : Nat) : Nat := skip + PAGE_SIZE

/-- `prevPage`: `setSkip(s => Math.max(0, s - PAGE_SIZE))` (on naturals the
truncated subtraction is exactly `Math.max(0, ...)`). -/
def prevPage (skip : Nat) : Nat := skip - PAGE_SIZE

/-- A fetch outcome that represents a failure: a throw or a non-ok
response. -/
def failureOutcome {β : Type} : FetchOutcome β → Prop
  | .thrown _ _ => True
  | .response ok _ _ => ok = false

/-- The error message a hook derives from a failing outcome:
the thrown `Error`'s message (or the hook's fallback literal for non-`Error`
throws), respectively `body.detail ?? res.statusText` for a non-ok response.
`detailOf` extracts the body's `detail` field. -/
def derivedErrMsg {β : Type} (detailOf : β → Option String)
    (fallbackMsg : String) : FetchOutcome β → String
  | .thrown isErr msg => if isErr then msg else fallbackMsg
  | .response _ body statusText => (detailOf body).getD statusText

end Lottery

namespace Lottery

/-! ## Claim C6: pagination arithmetic -/

theorem ceil_div_twenty (a : Nat) (ha : a ≠ 0) :
    ⌈(a : ℚ) / (20 : ℚ)⌉₊ = (a + 19) / 20 := by
  have h1 : a ≤ ((a + 19) / 20) * 20 := by omega
  have h2 : ((a + 19) / 20) * 20 ≤ a + 19 := by omega
  have hq1 : 1 ≤ (a + 19) / 20 := by omega
  have c1 : (a : ℚ) ≤ (((a + 19) / 20 : Nat) : ℚ) * 20 := by exact_mod_cast h1
  have c2 : (((a + 19) / 20 : Nat) : ℚ) * 20 ≤ (a : ℚ) + 19 := by exact_mod_cast h2
  rw [Nat.ceil_eq_iff (by omega)]
  constructor
  · rw [Nat.cast_sub hq1, lt_div_iff₀ (by norm_num : (0 : ℚ) < 20)]
    push_cast
    linarith
  · rw [div_le_iff₀ (by norm_num : (0 : ℚ) < 20)]
    linarith

/-- C6: in every state of the pagination hooks, `totalPages` equals
`ceil(total / 20)` with a minimum of one page (so `totalPages ≥ 1`, also
for `total = 0`), `currentPage` equals `floor(skip / 20) + 1`, and the
`skip = 20`, `total = 38` example yields `currentPage = 2`,
`totalPages = 2`. -/
theorem c6_pagination_pages (total skip : Nat) :
    totalPages total = max 1 ⌈(total : ℚ) / (PAGE_SIZE : ℚ)⌉₊ ∧
    1 ≤ totalPages total ∧
    currentPage skip = ⌊(skip : ℚ) / (PAGE_SIZE : ℚ)⌋₊ + 1 ∧
    currentPage 20 = 2 ∧ totalPages 38 = 2 := by
  have hps : ((PAGE_SIZE : ℚ)) = ((20 : Nat) : ℚ) := by norm_num [PAGE_SIZE]
  have hfloor : ⌊(skip : ℚ) / (PAGE_SIZE : ℚ)⌋₊ = skip / 20 := by
    rw [hps, Nat.floor_div_nat, Nat.floor_natCast]
  refine ⟨?_, ?_, ?_, by decide, by decide⟩
  · by_cases h : total = 0
    · subst h; simp [totalPages, PAGE_SIZE]
    · rw [hps, show (((20 : Nat) : ℚ)) = (20 : ℚ) by norm_num,
        ceil_div_twenty total h]
      have hq1 : 1 ≤ (total + 19) / 20 := by omega
      rw [max_eq_right hq1]
      simp only [totalPages, PAGE_SIZE]
      split <;> omega
  · simp only [totalPages, PAGE_SIZE]
    split <;> omega
  · rw [hfloor]
    simp only [currentPage, PAGE_SIZE]

/-! ## Claim C10: empty-lottery short circuit -/

/-- C10: a `fetchDraws` run with an empty lottery identifier clears
`draws` and `total`, issues no network request, and leaves `error` and
`loading` (and the filter inputs) untouched — in particular a leftover
error message is not cleared. -/
theorem c10_empty_lottery_short_circuit (st : DrawsHookState)
    (o : FetchOutcome DrawsBody) :
    fetchDraws "" st o = ({ st with draws := [], total := 0 }, false) ∧
    (fetchDraws "" st o).1.error = st.error ∧
    (fetchDraws "" st o).1.loading = st.loading ∧
    (fetchDraws "" st o).1.draws = [] ∧
    (fetchDraws "" st o).1.total = 0 ∧
    (fetchDraws "" st o).2 = false := by
  refine ⟨rfl, rfl, rfl, rfl, rfl, rfl⟩

/-! ## Claim C4: failure handling clears rows -/

/-- C4 fails as stated: the error string left by a failed fetch can be
empty.  A non-ok response whose JSON body has no `detail` field and whose
`statusText` is empty (as with HTTP/2 transports) settles with
`error = ""`, even though the body carried a `message` field. -/
theorem c4_counterexample :
    failureOutcome (β := DrawsBody)
      (.response false ⟨none, some "boom", none, none⟩ "") ∧
    (fetchDraws "euromillones" ⟨"", "", [⟨1⟩], 5, 0, false, ""⟩
        (.response false ⟨none, some "boom", none, none⟩ "")).1.error = "" ∧
    (fetchDraws "euromillones" ⟨"", "", [⟨1⟩], 5, 0, false, ""⟩
        (.response false ⟨none, some "boom", none, none⟩ "")).1.draws = [] := by
  exact ⟨rfl, rfl, rfl⟩

/-- C4 (amended): on a throwing fetch or a non-ok response, both the draw
query hook and a feature query hook settle with `rows = []`, `total = 0`
and `error` equal to the derived failure message — never stale rows next
to an error — and that message is non-empty whenever the underlying
thrown message / `detail` / status text is non-empty. -/
theorem c4_failure_clears_rows {ρ : Type}
    (lottery : String) (st : DrawsHookState) (o : FetchOutcome DrawsBody)
    (stF : FeatureHookState ρ) (oF : FetchOutcome (FeaturesBody ρ)) (fb : String)
    (hl : lottery ≠ "")
    (ho : failureOutcome o)
    (hmsg : derivedErrMsg DrawsBody.detail "Failed to load draws" o ≠ "")
    (hoF : failureOutcome oF)
    (hmsgF : derivedErrMsg FeaturesBody.detail fb oF ≠ "") :
    ((fetchDraws lottery st o).1.draws = [] ∧
     (fetchDraws lottery st o).1.total = 0 ∧
     (fetchDraws lottery st o).1.error
        = derivedErrMsg DrawsBody.detail "Failed to load draws" o ∧
     (fetchDraws lottery st o).1.error ≠ "" ∧
     (fetchDraws lottery st o).1.loading = false) ∧
    ((fetchRows fb stF oF).1.rows = [] ∧
     (fetchRows fb stF oF).1.total = 0 ∧
     (fetchRows fb stF oF).1.error = derivedErrMsg FeaturesBody.detail fb oF ∧
     (fetchRows fb stF oF).1.error ≠ "" ∧
     (fetchRows fb stF oF).1.loading = false) := by
  constructor
  · cases o with
    | thrown isErr msg =>
        simp [fetchDraws, hl, derivedErrMsg] at *
        exact hmsg
    | response ok body statusText =>
        simp only [failureOutcome] at ho
        subst ho
        simp [fetchDraws, hl, derivedErrMsg] at *
        exact hmsg
  · cases oF with
    | thrown isErr msg =>
        simp [fetchRows, derivedErrMsg] at *
        exact hmsgF
    | response ok body statusText =>
        simp only [failureOutcome] at hoF
        subst hoF
        simp [fetchRows, derivedErrMsg] at *
        exact hmsgF

theorem c4_failure_clears_rows_witness :
    ("euromillones" : String) ≠ "" ∧
    ((fetchDraws "euromillones" ⟨"", "", [⟨1⟩], 5, 0, false, ""⟩
        (.thrown true "network down")).1.draws = [] ∧
     (fetchDraws "euromillones" ⟨"", "", [⟨1⟩], 5, 0, false, ""⟩
        (.thrown true "network down")).1.error ≠ "") := by
  have h := c4_failure_clears_rows (ρ := Draw) "euromillones"
    ⟨"", "", [⟨1⟩], 5, 0, false, ""⟩ (.thrown true "network down")
    ⟨[⟨2⟩], 7, 0, false, ""⟩ (.thrown true "boom") "Error al cargar datos de El Gordo"
    (by decide) trivial (by decide) trivial (by decide)
  exact ⟨by decide, h.1.1, h.1.2.2.2.1⟩

/-! ## Claim C5: error message selection -/

/-- C5 fails as stated: the hooks read the `detail` field of the error
body, not the `message` field.  A non-ok response whose body has
`message = "boom"` but no `detail` settles with `error` equal to the
status text, not `"boom"`. -/
theorem c5_counterexample :
    (fetchRows "Error al cargar datos de El Gordo"
        (⟨[], 0, 0, false, ""⟩ : FeatureHookState Draw)
        (.response false ⟨none, some "boom", none, none⟩
          "Internal Server Error")).1.error = "Internal Server Error" ∧
    ("Internal Server Error" : String) ≠ "boom" ∧
    (fetchDraws "euromillones" ⟨"", "", [], 0, 0, false, ""⟩
        (.response false ⟨none, some "boom", none, none⟩
          "Internal Server Error")).1.error = "Internal Server Error" := by
  exact ⟨rfl, by decide, rfl⟩

/-- C5 (amended): for every non-ok response, the hook's error state is set
to the `detail` field of the JSON error body when present, and otherwise
falls back to the transport-level status text — for the draw query hook
and the feature query hooks alike. -/
theorem c5_error_detail_fallback {ρ : Type}
    (lottery : String) (st : DrawsHookState) (body : DrawsBody)
    (stF : FeatureHookState ρ) (bodyF : FeaturesBody ρ) (fb statusText : String)
    (hl : lottery ≠ "") :
    (fetchDraws lottery st (.response false body statusText)).1.error
        = body.detail.getD statusText ∧
    (fetchRows fb stF (.response false bodyF statusText)).1.error
        = bodyF.detail.getD statusText := by
  constructor
  · simp [fetchDraws, hl]
  · simp [fetchRows]

theorem c5_error_detail_fallback_witness :
    ("euromillones" : String) ≠ "" ∧
    (fetchDraws "euromillones" ⟨"", "", [], 0, 0, false, ""⟩
        (.response false ⟨some "not found", none, none, none⟩ "ISE")).1.error
      = "not found" := by
  have h := c5_error_detail_fallback (ρ := Draw) "euromillones"
    ⟨"", "", [], 0, 0, false, ""⟩ ⟨some "not found", none, none, none⟩
    ⟨[], 0, 0, false, ""⟩ ⟨none, none, none, none⟩ "fb" "ISE" (by decide)
  exact ⟨by decide, h.1⟩

end Lottery

namespace Lottery

/-! ## JS date model

The gap builders convert ISO `YYYY-MM-DD` strings to UTC-midnight
timestamps via `Date.UTC`, and parse the selected end date via
`Date.parse`.  Days are counted with the proleptic-Gregorian civil
calendar used by ECMAScript time values. -/

/-- Days since 1970-01-01 of the civil date `(y, m, d)` with `m ∈ [1,12]`;
`d` may exceed the month length (ECMAScript day arithmetic is linear in
`d`).  Divisions are truncated, which the `0 ≤ y1` guard is designed
for. -/
def daysFromCivil (y m d : Int) : Int :=
  let y1 := if m ≤ 2 then y - 1 else y
  let era := (if 0 ≤ y1 then y1 else y1 - 399) / 400
  let yoe := y1 - era * 400
  let mp := (m + 9) % 12
  let doy := (153 * mp + 2) / 5 + d - 1
  let doe := yoe * 365 + yoe / 4 - yoe / 100 + doy
  era * 146097 + doe - 719468

/-- Models `Date.UTC(y, mIdx, d)` in milliseconds: the two-digit-year
rule (`0 ≤ y ≤ 99` means `1900 + y`), floored month-index normalization,
proleptic-Gregorian day computation, and the ±8.64e15 time-value clamp
(`none` = `NaN`). -/
def utcMs (y mIdx d : Int) : Option Int :=
  let yy := if 0 ≤ y ∧ y ≤ 99 then 1900 + y else y
  let ym := yy * 12 + mIdx
  let y2 := Int.fdiv ym 12
  let m2 := Int.emod ym 12
  let ms := daysFromCivil y2 (m2 + 1) d * 86400000
  if ms.natAbs ≤ 8640000000000000 then some ms else none

/-- JS `str.split(sep)` for a one-character separator, keeping empty
pieces. -/
def splitOnCharAux (sep : Char) : List Char → List Char → List (List Char)
  | [], acc => [acc.reverse]
  | c :: cs, acc =>
      if c = sep then acc.reverse :: splitOnCharAux sep cs []
      else splitOnCharAux sep cs (c :: acc)

def splitOnChar (sep : Char) (cs : List Char) : List (List Char) :=
  splitOnCharAux sep cs []

/-- Models JS `Number(str)` for the strings that occur as components of a
split date: whitespace is trimmed, the empty string is `0`, a pure run of
ASCII digits is its decimal value, and anything else (fractional, hex,
signed or exponent forms, which never occur inside `YYYY-MM-DD` data) is
`NaN` (`none`). -/
def jsNumberNat (cs : List Char) : Option Nat :=
  let t := ((cs.dropWhile isSpaceChar).reverse.dropWhile isSpaceChar).reverse
  if t.isEmpty then some 0
  else if t.all isDigitChar then some (digitsToNat t) else none

/-- The date-to-timestamp conversion in the gap builders' inner loop:
`const [y, m, day] = d.split('-').map(Number)`, the falsy guard
`if (!y || !m || !day) continue`, `Date.UTC(y, m - 1, day)`, and the
`Number.isNaN(ms)` skip, folded into one `Option`-valued function. -/
def dateMsOfStr (s : String) : Option Int :=
  let parts := splitOnChar '-' s.toList
  match (parts[0]?).bind jsNumberNat, (parts[1]?).bind jsNumberNat,
      (parts[2]?).bind jsNumberNat with
  | some y, some m, some d =>
      if y = 0 ∨ m = 0 ∨ d = 0 then none
      else utcMs (y : Int) ((m : Int) - 1) (d : Int)
  | _, _, _ => none

def isLeapYear (y : Nat) : Bool := (y % 4 = 0 && y % 100 != 0) || y % 400 = 0

def daysInMonth (y m : Nat) : Nat :=
  if m = 2 then (if isLeapYear y then 29 else 28)
  else if m = 4 ∨ m = 6 ∨ m = 9 ∨ m = 11 then 30
  else 31

/-- Models `Date.parse` on the `YYYY-MM-DD` date-only ISO form — the only
form the features panels pass to `loadGapsForDate`
(`String(r.draw_date).split(' ')[0]`).  Any string not of that shape, or
with an out-of-range month or day, is unparseable (`none` = `NaN`).  A
date-only string is read as UTC midnight, with no two-digit-year
adjustment. -/
def jsDateParse (s : String) : Option Int :=
  match splitOnChar '-' s.toList with
  | [ys, ms, ds] =>
      if ys.length = 4 ∧ ms.length = 2 ∧ ds.length = 2 ∧
          (ys ++ ms ++ ds).all isDigitChar then
        let y := digitsToNat ys
        let m := digitsToNat ms
        let d := digitsToNat ds
        if 1 ≤ m ∧ m ≤ 12 ∧ 1 ≤ d ∧ d ≤ daysInMonth y m then
          let v := daysFromCivil (y : Int) (m : Int) (d : Int) * 86400000
          if v.natAbs ≤ 8640000000000000 then some v else none
        else none
      else none
  | _ => none

/-! ## Number-history gap builder -/

/-- One `/api/{lottery}/number-history` entry: a number and the dates it
was drawn. -/
structure HistEntry where
  number : Int
  dates : List String
deriving DecidableEq

/-- A derived scatter point `(number, ts, date)`. -/
structure GapPoint where
  number : Int
  ts : Int
  date : String
deriving DecidableEq

/-- `buildGapPoints` of ElGordoFeaturesPanel (src/unnamed/part_005 lines
140-156), identical to the inline `buildPoints` of
EuromillonesFeaturesPanel: collect a point for each parseable appearance
date whose UTC timestamp lies in `[startMs, endMs]`. -/
def buildGapPoints (history : List HistEntry) (startMs endMs : Int) :
    List GapPoint :=
  history.flatMap fun e =>
    e.dates.filterMap fun d =>
      match dateMsOfStr d with
      | none => none
      | some ms =>
          if startMs ≤ ms ∧ ms ≤ endMs then some ⟨e.number, ms, d⟩ else none

/-- A thrown JS value as seen by a `catch` block: whether it was an
`instanceof Error`, and its message. -/
structure JsError where
  isErr : Bool
  msg : String
deriving DecidableEq

/-- History-cache state of the El Gordo features panel. -/
structure GordoHistState where
  historyLoaded : Bool
  historyMain : Option (List HistEntry)
  historyClave : Option (List HistEntry)
deriving DecidableEq

/-- JSON body of `/api/el-gordo/number-history`. -/
structure GordoHistoryBody where
  detail : Option String
  main : Option (List HistEntry)
  clave : Option (List HistEntry)

/-- `ensureHistoryLoaded` of ElGordoFeaturesPanel (part_005 lines
124-138): return the cache when `historyLoaded && historyMain != null`,
otherwise fetch, throw on failure, and cache both categories from the one
response.  Result: new state, whether a request was issued, and the
returned (or thrown) value. -/
def ensureHistoryLoadedGordo (st : GordoHistState)
    (o : FetchOutcome GordoHistoryBody) :
    GordoHistState × Bool × Except JsError (List HistEntry × List HistEntry) :=
  match st.historyLoaded, st.historyMain with
  | true, some m => (st, false, .ok (m, st.historyClave.getD []))
  | _, _ =>
      match o with
      | .thrown isErr msg => (st, true, .error ⟨isErr, msg⟩)
      | .response ok body statusText =>
          if ok then
            let main := body.main.getD []
            let clave := body.clave.getD []
            (⟨true, some main, some clave⟩, true, .ok (main, clave))
          else (st, true, .error ⟨true, body.detail.getD statusText⟩)

/-- Sequential runs of `ensureHistoryLoaded` within one page session,
counting how many network requests were issued. -/
def ensureManyGordo (st : GordoHistState) :
    List (FetchOutcome GordoHistoryBody) → GordoHistState × Nat
  | [] => (st, 0)
  | o :: os =>
      let r := ensureHistoryLoadedGordo st o
      let rest := ensureManyGordo r.1 os
      (rest.1, (if r.2.1 then 1 else 0) + rest.2)

/-- History-cache state of the Euromillones features panel. -/
structure EuroHistState where
  historyLoaded : Bool
  historyMain : Option (List HistEntry)
  historyStar : Option (List HistEntry)
deriving DecidableEq

/-- JSON body of `/api/euromillones/number-history`. -/
structure EuroHistoryBody where
  detail : Option String
  main : Option (List HistEntry)
  star : Option (List HistEntry)

/-- `ensureHistoryLoaded` of EuromillonesFeaturesPanel (lines 161-177):
the cache check is `historyLoaded && historyMain && historyStar` (arrays
are always truthy, so this is a double non-null check). -/
def ensureHistoryLoadedEuro (st : EuroHistState)
    (o : FetchOutcome EuroHistoryBody) :
    EuroHistState × Bool × Except JsError (List HistEntry × List HistEntry) :=
  match st.historyLoaded, st.historyMain, st.historyStar with
  | true, some m, some s => (st, false, .ok (m, s))
  | _, _, _ =>
      match o with
      | .thrown isErr msg => (st, true, .error ⟨isErr, msg⟩)
      | .response ok body statusText =>
          if ok then
            let main := body.main.getD []
            let star := body.star.getD []
            (⟨true, some main, some star⟩, true, .ok (main, star))
          else (st, true, .error ⟨true, body.detail.getD statusText⟩)

/-- Sequential runs of the Euromillones `ensureHistoryLoaded`. -/
def ensureManyEuro (st : EuroHistState) :
    List (FetchOutcome EuroHistoryBody) → EuroHistState × Nat
  | [] => (st, 0)
  | o :: os =>
      let r := ensureHistoryLoadedEuro st o
      let rest := ensureManyEuro r.1 os
      (rest.1, (if r.2.1 then 1 else 0) + rest.2)

/-- Gap-chart state of the El Gordo features panel. -/
structure GordoGapState where
  gapLoading : Bool
  gapError : String
  gapPointsMain : Option (List GapPoint)
  gapPointsClave : Option (List GapPoint)
  hist : GordoHistState
deriving DecidableEq

/-- `loadGapsForDate` of ElGordoFeaturesPanel (part_005 lines 158-176):
ensure the history, parse the end date (throwing `'Fecha final no
válida'` when `Date.parse` yields `NaN`), and set both point sets from a
`[endMs - 31*24*60*60*1000, endMs]` window; on any throw set the error
message and reset both point sets to `null`. -/
def loadGapsForDateGordo (st : GordoGapState)
    (o : FetchOutcome GordoHistoryBody) (endDateStr : String) :
    GordoGapState × Bool :=
  let st1 := { st with gapLoading := true, gapError := "" }
  match ensureHistoryLoadedGordo st1.hist o with
  | (h2, fetched, .error e) =>
      ({ st1 with hist := h2,
                  gapError := if e.isErr then e.msg
                    else "Error al cargar historial de gaps",
                  gapPointsMain := none, gapPointsClave := none,
                  gapLoading := false }, fetched)
  | (h2, fetched, .ok loaded) =>
      match jsDateParse endDateStr with
      | none =>
          ({ st1 with hist := h2, gapError := "Fecha final no válida",
                      gapPointsMain := none, gapPointsClave := none,
                      gapLoading := false }, fetched)
      | some endMs =>
          let windowMs : Int := 31 * 24 * 60 * 60 * 1000
          let startMs := endMs - windowMs
          ({ st1 with hist := h2,
                      gapPointsMain := some (buildGapPoints loaded.1 startMs endMs),
                      gapPointsClave := some (buildGapPoints loaded.2 startMs endMs),
                      gapLoading := false }, fetched)

/-- Gap-chart state of the Euromillones features panel. -/
structure EuroGapState where
  gapLoading : Bool
  gapError : String
  gapPointsMain : Option (List GapPoint)
  gapPointsStar : Option (List GapPoint)
  hist : EuroHistState
deriving DecidableEq

/-- `loadGapsForDate` of EuromillonesFeaturesPanel (lines 179-222); same
control flow as the El Gordo variant with its own message literals. -/
def loadGapsForDateEuro (st : EuroGapState)
    (o : FetchOutcome EuroHistoryBody) (endDateStr : String) :
    EuroGapState × Bool :=
  let st1 := { st with gapLoading := true, gapError := "" }
  match ensureHistoryLoadedEuro st1.hist o with
  | (h2, fetched, .error e) =>
      ({ st1 with hist := h2,
                  gapError := if e.isErr then e.msg
                    else "Failed to load gap history",
                  gapPointsMain := none, gapPointsStar := none,
                  gapLoading := false }, fetched)
  | (h2, fetched, .ok loaded) =>
      match jsDateParse endDateStr with
      | none =>
          ({ st1 with hist := h2, gapError := "Invalid end date",
                      gapPointsMain := none, gapPointsStar := none,
                      gapLoading := false }, fetched)
      | some endMs =>
          let windowMs : Int := 31 * 24 * 60 * 60 * 1000
          let startMs := endMs - windowMs
          ({ st1 with hist := h2,
                      gapPointsMain := some (buildGapPoints loaded.1 startMs endMs),
                      gapPointsStar := some (buildGapPoints loaded.2 startMs endMs),
                      gapLoading := false }, fetched)

end Lottery

namespace Lottery

/-! ## Claim C8: history is fetched once per session -/

theorem ensureGordo_cached (st : GordoHistState) (m : List HistEntry)
    (o : FetchOutcome GordoHistoryBody)
    (hl : st.historyLoaded = true) (hm : st.historyMain = some m) :
    ensureHistoryLoadedGordo st o = (st, false, .ok (m, st.historyClave.getD [])) := by
  obtain ⟨l, mm, c⟩ := st
  simp only at hl hm
  subst hl hm
  rfl

theorem ensureManyGordo_cached (st : GordoHistState) (m : List HistEntry)
    (os : List (FetchOutcome GordoHistoryBody))
    (hl : st.historyLoaded = true) (hm : st.historyMain = some m) :
    ensureManyGordo st os = (st, 0) := by
  induction os with
  | nil => rfl
  | cons o os ih =>
      simp [ensureManyGordo, ensureGordo_cached st m o hl hm, ih]

theorem ensureEuro_cached (st : EuroHistState) (m s : List HistEntry)
    (o : FetchOutcome EuroHistoryBody)
    (hl : st.historyLoaded = true) (hm : st.historyMain = some m)
    (hs : st.historyStar = some s) :
    ensureHistoryLoadedEuro st o = (st, false, .ok (m, s)) := by
  obtain ⟨l, mm, ss⟩ := st
  simp only at hl hm hs
  subst hl hm hs
  rfl

theorem ensureManyEuro_cached (st : EuroHistState) (m s : List HistEntry)
    (os : List (FetchOutcome EuroHistoryBody))
    (hl : st.historyLoaded = true) (hm : st.historyMain = some m)
    (hs : st.historyStar = some s) :
    ensureManyEuro st os = (st, 0) := by
  induction os with
  | nil => rfl
  | cons o os ih =>
      simp [ensureManyEuro, ensureEuro_cached st m s o hl hm hs, ih]

/-- C8: `ensureHistoryLoaded` is idempotent within a page session.  On a
cached state (history loaded, cache non-null) any call — and any sequence
of calls — returns the cached history, issues no request and leaves the
state unchanged; from the pristine state, a successful call issues one
request, caches every category of the lottery from the single response,
and any sequence beginning with that success issues exactly one request
in total.  Proved for both panel variants. -/
theorem c8_ensure_history_idempotent
    (st : GordoHistState) (m : List HistEntry)
    (o : FetchOutcome GordoHistoryBody) (os : List (FetchOutcome GordoHistoryBody))
    (body : GordoHistoryBody) (stTx : String)
    (stE : EuroHistState) (mE sE : List HistEntry)
    (oE : FetchOutcome EuroHistoryBody) (osE : List (FetchOutcome EuroHistoryBody))
    (bodyE : EuroHistoryBody) (stTxE : String)
    (hl : st.historyLoaded = true) (hm : st.historyMain = some m)
    (hlE : stE.historyLoaded = true) (hmE : stE.historyMain = some mE)
    (hsE : stE.historyStar = some sE) :
    ensureHistoryLoadedGordo st o = (st, false, .ok (m, st.historyClave.getD [])) ∧
    ensureManyGordo st os = (st, 0) ∧
    ensureHistoryLoadedGordo ⟨false, none, none⟩ (.response true body stTx)
      = (⟨true, some (body.main.getD []), some (body.clave.getD [])⟩, true,
          .ok (body.main.getD [], body.clave.getD [])) ∧
    (ensureManyGordo ⟨false, none, none⟩ (.response true body stTx :: os)).2 = 1 ∧
    ensureHistoryLoadedEuro stE oE = (stE, false, .ok (mE, sE)) ∧
    ensureManyEuro stE osE = (stE, 0) ∧
    ensureHistoryLoadedEuro ⟨false, none, none⟩ (.response true bodyE stTxE)
      = (⟨true, some (bodyE.main.getD []), some (bodyE.star.getD [])⟩, true,
          .ok (bodyE.main.getD [], bodyE.star.getD [])) ∧
    (ensureManyEuro ⟨false, none, none⟩ (.response true bodyE stTxE :: osE)).2 = 1 := by
  refine ⟨ensureGordo_cached st m o hl hm, ensureManyGordo_cached st m os hl hm,
    rfl, ?_, ensureEuro_cached stE mE sE oE hlE hmE hsE,
    ensureManyEuro_cached stE mE sE osE hlE hmE hsE, rfl, ?_⟩
  · simp only [ensureManyGordo]
    rw [show (ensureHistoryLoadedGordo ⟨false, none, none⟩ (.response true body stTx))
        = (⟨true, some (body.main.getD []), some (body.clave.getD [])⟩, true,
            .ok (body.main.getD [], body.clave.getD [])) from rfl]
    rw [ensureManyGordo_cached _ (body.main.getD []) os rfl rfl]
    rfl
  · simp only [ensureManyEuro]
    rw [show (ensureHistoryLoadedEuro ⟨false, none, none⟩ (.response true bodyE stTxE))
        = (⟨true, some (bodyE.main.getD []), some (bodyE.star.getD [])⟩, true,
            .ok (bodyE.main.getD [], bodyE.star.getD [])) from rfl]
    rw [ensureManyEuro_cached _ (bodyE.main.getD []) (bodyE.star.getD []) osE rfl rfl rfl]
    rfl

theorem c8_ensure_history_idempotent_witness :
    (ensureHistoryLoadedGordo ⟨true, some [⟨7, ["2024-01-01"]⟩], some []⟩
        (.thrown true "never sent")
      = (⟨true, some [⟨7, ["2024-01-01"]⟩], some []⟩, false,
          .ok ([⟨7, ["2024-01-01"]⟩], []))) ∧
    (ensureManyGordo ⟨false, none, none⟩
        (.response true ⟨none, some [⟨7, ["2024-01-01"]⟩], some []⟩ "OK"
          :: [.thrown true "never sent", .thrown true "never sent"])).2 = 1 := by
  have h := c8_ensure_history_idempotent
    ⟨true, some [⟨7, ["2024-01-01"]⟩], some []⟩ [⟨7, ["2024-01-01"]⟩]
    (.thrown true "never sent") [.thrown true "never sent", .thrown true "never sent"]
    ⟨none, some [⟨7, ["2024-01-01"]⟩], some []⟩ "OK"
    ⟨true, some [], some []⟩ [] []
    (.thrown true "never sent") [] ⟨none, none, none⟩ "OK"
    rfl rfl rfl rfl rfl
  exact ⟨h.1, h.2.2.2.1⟩

/-! ## Claim C9: invalid end date resets the gap charts -/

/-- The message that would surface if this outcome makes
`ensureHistoryLoaded` throw is non-empty (vacuous for successful
outcomes). -/
def gapFailMsgNonempty {β : Type} (detailOf : β → Option String) :
    FetchOutcome β → Prop
  | .thrown isErr msg => isErr = true → msg ≠ ""
  | .response ok body statusText =>
      ok = false → (detailOf body).getD statusText ≠ ""


theorem ensureGordo_error_inv (st : GordoHistState)
    (o : FetchOutcome GordoHistoryBody) (h2 : GordoHistState) (f : Bool)
    (e : JsError)
    (h : ensureHistoryLoadedGordo st o = (h2, f, .error e)) :
    (∃ isErr msg, o = .thrown isErr msg ∧ e = ⟨isErr, msg⟩) ∨
    (∃ body stTx, o = .response false body stTx ∧
      e = ⟨true, body.detail.getD stTx⟩) := by
  obtain ⟨l, mm, c⟩ := st
  cases o with
  | thrown isErr msg =>
      left
      refine ⟨isErr, msg, rfl, ?_⟩
      cases l <;> rcases mm with _ | m <;>
        unfold ensureHistoryLoadedGordo at h <;>
        · injection h with ha hrest
          injection hrest with hb hc
          first
          | (exact Except.noConfusion hc)
          | (injection hc with he; exact he.symm)
  | response ok body stTx =>
      cases ok with
      | true =>
          exfalso
          cases l <;> rcases mm with _ | m <;>
            unfold ensureHistoryLoadedGordo at h <;> simp only [if_true] at h <;>
            · injection h with ha hrest
              injection hrest with hb hc
              exact Except.noConfusion hc
      | false =>
          right
          refine ⟨body, stTx, rfl, ?_⟩
          cases l <;> rcases mm with _ | m <;>
            unfold ensureHistoryLoadedGordo at h <;>
              simp only [Bool.false_eq_true, if_false] at h <;>
            · injection h with ha hrest
              injection hrest with hb hc
              first
              | (exact Except.noConfusion hc)
              | (injection hc with he; exact he.symm)

theorem ensureEuro_error_inv (st : EuroHistState)
    (o : FetchOutcome EuroHistoryBody) (h2 : EuroHistState) (f : Bool)
    (e : JsError)
    (h : ensureHistoryLoadedEuro st o = (h2, f, .error e)) :
    (∃ isErr msg, o = .thrown isErr msg ∧ e = ⟨isErr, msg⟩) ∨
    (∃ body stTx, o = .response false body stTx ∧
      e = ⟨true, body.detail.getD stTx⟩) := by
  obtain ⟨l, mm, ss⟩ := st
  cases o with
  | thrown isErr msg =>
      left
      refine ⟨isErr, msg, rfl, ?_⟩
      cases l <;> rcases mm with _ | m <;> rcases ss with _ | s <;>
        unfold ensureHistoryLoadedEuro at h <;>
        · injection h with ha hrest
          injection hrest with hb hc
          first
          | (exact Except.noConfusion hc)
          | (injection hc with he; exact he.symm)
  | response ok body stTx =>
      cases ok with
      | true =>
          exfalso
          cases l <;> rcases mm with _ | m <;> rcases ss with _ | s <;>
            unfold ensureHistoryLoadedEuro at h <;> simp only [if_true] at h <;>
            · injection h with ha hrest
              injection hrest with hb hc
              exact Except.noConfusion hc
      | false =>
          right
          refine ⟨body, stTx, rfl, ?_⟩
          cases l <;> rcases mm with _ | m <;> rcases ss with _ | s <;>
            unfold ensureHistoryLoadedEuro at h <;>
              simp only [Bool.false_eq_true, if_false] at h <;>
            · injection h with ha hrest
              injection hrest with hb hc
              first
              | (exact Except.noConfusion hc)
              | (injection hc with he; exact he.symm)

theorem gordo_error_msg_nonempty (st : GordoHistState)
    (o : FetchOutcome GordoHistoryBody) (h2 : GordoHistState) (f : Bool)
    (e : JsError) (L : String) (hL : L ≠ "")
    (hmsg : gapFailMsgNonempty GordoHistoryBody.detail o)
    (h : ensureHistoryLoadedGordo st o = (h2, f, .error e)) :
    (if e.isErr then e.msg else L) ≠ "" := by
  rcases ensureGordo_error_inv st o h2 f e h with
    ⟨isErr, msg, rfl, rfl⟩ | ⟨body, stTx, rfl, rfl⟩
  · cases isErr with
    | true => simpa using hmsg rfl
    | false => simpa using hL
  · simpa using hmsg rfl

theorem euro_error_msg_nonempty (st : EuroHistState)
    (o : FetchOutcome EuroHistoryBody) (h2 : EuroHistState) (f : Bool)
    (e : JsError) (L : String) (hL : L ≠ "")
    (hmsg : gapFailMsgNonempty EuroHistoryBody.detail o)
    (h : ensureHistoryLoadedEuro st o = (h2, f, .error e)) :
    (if e.isErr then e.msg else L) ≠ "" := by
  rcases ensureEuro_error_inv st o h2 f e h with
    ⟨isErr, msg, rfl, rfl⟩ | ⟨body, stTx, rfl, rfl⟩
  · cases isErr with
    | true => simpa using hmsg rfl
    | false => simpa using hL
  · simpa using hmsg rfl

/-- C9: when the end date is unparseable, `loadGapsForDate` settles with a
non-empty user-facing error and both categories' gap point sets reset to
`null` (not the empty array), with the loading flag cleared — in both
panel variants. -/
theorem c9_invalid_end_date_resets (st : GordoGapState)
    (o : FetchOutcome GordoHistoryBody) (stE : EuroGapState)
    (oE : FetchOutcome EuroHistoryBody) (endStr : String)
    (hparse : jsDateParse endStr = none)
    (hmsg : gapFailMsgNonempty GordoHistoryBody.detail o)
    (hmsgE : gapFailMsgNonempty EuroHistoryBody.detail oE) :
    ((loadGapsForDateGordo st o endStr).1.gapPointsMain = none ∧
     (loadGapsForDateGordo st o endStr).1.gapPointsClave = none ∧
     (loadGapsForDateGordo st o endStr).1.gapError ≠ "" ∧
     (loadGapsForDateGordo st o endStr).1.gapLoading = false) ∧
    ((loadGapsForDateEuro stE oE endStr).1.gapPointsMain = none ∧
     (loadGapsForDateEuro stE oE endStr).1.gapPointsStar = none ∧
     (loadGapsForDateEuro stE oE endStr).1.gapError ≠ "" ∧
     (loadGapsForDateEuro stE oE endStr).1.gapLoading = false) := by
  constructor
  · rcases hres : ensureHistoryLoadedGordo st.hist o with ⟨h2, f, exc⟩
    cases exc with
    | error e =>
        have hne := gordo_error_msg_nonempty st.hist o h2 f e
          "Error al cargar historial de gaps" (by decide) hmsg hres
        simp [loadGapsForDateGordo, hres, hne]
    | ok loaded =>
        simp [loadGapsForDateGordo, hres, hparse]
  · rcases hres : ensureHistoryLoadedEuro stE.hist oE with ⟨h2, f, exc⟩
    cases exc with
    | error e =>
        have hne := euro_error_msg_nonempty stE.hist oE h2 f e
          "Failed to load gap history" (by decide) hmsgE hres
        simp [loadGapsForDateEuro, hres, hne]
    | ok loaded =>
        simp [loadGapsForDateEuro, hres, hparse]

theorem c9_invalid_end_date_resets_witness :
    jsDateParse "not-a-date" = none ∧
    ((loadGapsForDateGordo ⟨false, "", some [], some [],
        ⟨true, some [⟨7, ["2024-01-01"]⟩], some []⟩⟩
        (.thrown true "boom") "not-a-date").1.gapPointsMain = none ∧
     (loadGapsForDateGordo ⟨false, "", some [], some [],
        ⟨true, some [⟨7, ["2024-01-01"]⟩], some []⟩⟩
        (.thrown true "boom") "not-a-date").1.gapError ≠ "") := by
  have h := c9_invalid_end_date_resets
    ⟨false, "", some [], some [], ⟨true, some [⟨7, ["2024-01-01"]⟩], some []⟩⟩
    (.thrown true "boom")
    ⟨false, "", some [], some [], ⟨true, some [], some []⟩⟩
    (.thrown true "boom") "not-a-date" rfl
    (fun _ => by decide) (fun _ => by decide)
  exact ⟨rfl, h.1.1, h.1.2.2.1⟩

end Lottery

namespace Lottery

/-! ## Claim C1: the gap window -/

theorem mem_buildGapPoints (history : List HistEntry) (startMs endMs : Int)
    (p : GapPoint) :
    p ∈ buildGapPoints history startMs endMs ↔
      ∃ e ∈ history, e.number = p.number ∧ p.date ∈ e.dates ∧
        dateMsOfStr p.date = some p.ts ∧ startMs ≤ p.ts ∧ p.ts ≤ endMs := by
  unfold buildGapPoints
  rw [List.mem_flatMap]
  constructor
  · rintro ⟨e, he, hp⟩
    rw [List.mem_filterMap] at hp
    obtain ⟨d, hd, hf⟩ := hp
    rcases hms : dateMsOfStr d with _ | ms
    · rw [hms] at hf
      exact absurd hf (by simp)
    · rw [hms] at hf
      have hf2 : (if startMs ≤ ms ∧ ms ≤ endMs then
          some (⟨e.number, ms, d⟩ : GapPoint) else none) = some p := hf
      split_ifs at hf2 with hw
      obtain rfl := Option.some.injEq .. |>.mp hf2
      exact ⟨e, he, rfl, hd, hms, hw.1, hw.2⟩
  · rintro ⟨e, he, hnum, hdate, hms, h1, h2⟩
    refine ⟨e, he, ?_⟩
    rw [List.mem_filterMap]
    refine ⟨p.date, hdate, ?_⟩
    rw [hms]
    show (if startMs ≤ p.ts ∧ p.ts ≤ endMs then
        some (⟨e.number, p.ts, p.date⟩ : GapPoint) else none) = some p
    rw [if_pos ⟨h1, h2⟩, hnum]

/-- C1 fails as stated: with reference date `D = 2024-02-01`, the
appearance date `2024-01-01` lies strictly before `D - 30` days, yet the
computed gap point set contains it — the window the code computes starts
at `D - 31 * 24h`, inclusive. -/
theorem c1_counterexample :
    jsDateParse "2024-02-01" = some 1706745600000 ∧
    dateMsOfStr "2024-01-01" = some 1704067200000 ∧
    (1704067200000 : Int) < 1706745600000 - 30 * 24 * 60 * 60 * 1000 ∧
    (loadGapsForDateGordo
        ⟨false, "", none, none, ⟨true, some [⟨7, ["2024-01-01"]⟩], some []⟩⟩
        (.thrown true "unused") "2024-02-01").1.gapPointsMain
      = some [⟨7, 1704067200000, "2024-01-01"⟩] := by
  refine ⟨rfl, rfl, by decide, rfl⟩

/-- C1 (amended): for every reference date `D` accepted by
`loadGapsForDate` and every number-history entry set, the computed gap
point set contains exactly the (number, appearance-date) pairs whose
UTC-normalized appearance date satisfies
`D - 31 days ≤ appearance ≤ D` — a trailing window of `31 × 24h` before
`D`, both endpoints inclusive (32 day boundaries) — and excludes all
others.  Proved for both features panels. -/
theorem c1_gap_window_31_days (st : GordoGapState) (m c : List HistEntry)
    (o : FetchOutcome GordoHistoryBody)
    (stE : EuroGapState) (mE sE : List HistEntry)
    (oE : FetchOutcome EuroHistoryBody)
    (endStr : String) (endMs : Int) (p : GapPoint)
    (hl : st.hist.historyLoaded = true) (hm : st.hist.historyMain = some m)
    (hc : st.hist.historyClave = some c)
    (hlE : stE.hist.historyLoaded = true) (hmE : stE.hist.historyMain = some mE)
    (hsE : stE.hist.historyStar = some sE)
    (hparse : jsDateParse endStr = some endMs) :
    ((loadGapsForDateGordo st o endStr).1.gapPointsMain
        = some (buildGapPoints m (endMs - 31 * 24 * 60 * 60 * 1000) endMs) ∧
     (loadGapsForDateGordo st o endStr).1.gapPointsClave
        = some (buildGapPoints c (endMs - 31 * 24 * 60 * 60 * 1000) endMs)) ∧
    ((loadGapsForDateEuro stE oE endStr).1.gapPointsMain
        = some (buildGapPoints mE (endMs - 31 * 24 * 60 * 60 * 1000) endMs) ∧
     (loadGapsForDateEuro stE oE endStr).1.gapPointsStar
        = some (buildGapPoints sE (endMs - 31 * 24 * 60 * 60 * 1000) endMs)) ∧
    (p ∈ buildGapPoints m (endMs - 31 * 24 * 60 * 60 * 1000) endMs ↔
      ∃ e ∈ m, e.number = p.number ∧ p.date ∈ e.dates ∧
        dateMsOfStr p.date = some p.ts ∧
        endMs - 31 * 24 * 60 * 60 * 1000 ≤ p.ts ∧ p.ts ≤ endMs) := by
  refine ⟨?_, ?_, mem_buildGapPoints m _ endMs p⟩
  · have hcache := ensureGordo_cached st.hist m o hl hm
    constructor <;>
      simp [loadGapsForDateGordo, hcache, hparse, hc]
  · have hcache := ensureEuro_cached stE.hist mE sE oE hlE hmE hsE
    constructor <;>
      simp [loadGapsForDateEuro, hcache, hparse]

theorem c1_gap_window_31_days_witness :
    ((loadGapsForDateGordo
        ⟨false, "", none, none, ⟨true, some [⟨7, ["2024-01-01"]⟩], some []⟩⟩
        (.thrown true "unused") "2024-02-01").1.gapPointsMain
      = some (buildGapPoints [⟨7, ["2024-01-01"]⟩]
          (1706745600000 - 31 * 24 * 60 * 60 * 1000) 1706745600000)) ∧
    (⟨7, 1704067200000, "2024-01-01"⟩ : GapPoint) ∈
      buildGapPoints [⟨7, ["2024-01-01"]⟩]
        (1706745600000 - 31 * 24 * 60 * 60 * 1000) 1706745600000 := by
  have h := c1_gap_window_31_days
    ⟨false, "", none, none, ⟨true, some [⟨7, ["2024-01-01"]⟩], some []⟩⟩
    [⟨7, ["2024-01-01"]⟩] [] (.thrown true "unused")
    ⟨false, "", none, none, ⟨true, some [], some []⟩⟩ [] []
    (.thrown true "unused") "2024-02-01" 1706745600000
    ⟨7, 1704067200000, "2024-01-01"⟩
    rfl rfl rfl rfl rfl rfl rfl
  refine ⟨h.1.1, ?_⟩
  rw [h.2.2]
  exact ⟨⟨7, ["2024-01-01"]⟩, by simp, rfl, by simp, rfl, by decide, by decide⟩

end Lottery

namespace Lottery

/-! ## Claim C2: when does `useDraws` refetch?

`useDraws` re-creates `fetchDraws` through
`useCallback(..., [lottery, fromInput, toInput, skip])` and runs it from
`useEffect(..., [fetchDraws])`, so the effect re-runs after a committed
render exactly when that dependency tuple differs from the previous
committed render's.  The model records the last committed tuple and flushes
one render at a time; React's bail-out on identical state only removes
renders whose flush would be a no-op here anyway. -/

/-- The `useCallback` dependency tuple of `fetchDraws`. -/
structure DrawsDeps where
  lottery : String
  fromInput : String
  toInput : String
  skip : Nat
deriving DecidableEq

/-- Render-relevant state of the `useDraws` effect machinery: current
inputs plus the dependency snapshot of the last committed effect run
(`none` before the mount render). -/
structure DrawsEffectState where
  lottery : String
  fromInput : String
  toInput : String
  skip : Nat
  lastDeps : Option DrawsDeps
deriving DecidableEq

def depsOf (s : DrawsEffectState) : DrawsDeps :=
  ⟨s.lottery, s.fromInput, s.toInput, s.skip⟩

/-- UI events that reach the hook: typing in the date inputs, a lottery
change via props, the search action (`setSkip(0)`), and the pager
buttons. -/
inductive DrawsEvent where
  | setFrom (v : String)
  | setTo (v : String)
  | setLottery (v : String)
  | search
  | next
  | prev
deriving DecidableEq

def applyEvent : DrawsEvent → DrawsEffectState → DrawsEffectState
  | .setFrom v, s => { s with fromInput := v }
  | .setTo v, s => { s with toInput := v }
  | .setLottery v, s => { s with lottery := v }
  | .search, s => { s with skip := 0 }
  | .next, s => { s with skip := s.skip + PAGE_SIZE }
  | .prev, s => { s with skip := s.skip - PAGE_SIZE }

/-- Commit a render and flush `useEffect`: the effect (a `fetchDraws`
call with the current dependencies) runs iff the dependency tuple changed
since the last committed render.  Returns the new state and whether a
fetch was started. -/
def renderFlush (s : DrawsEffectState) : DrawsEffectState × Bool :=
  if s.lastDeps = some (depsOf s) then (s, false)
  else ({ s with lastDeps := some (depsOf s) }, true)

/-- A state whose last committed effect run matches its current inputs:
nothing is pending. -/
def settled (s : DrawsEffectState) : Prop := s.lastDeps = some (depsOf s)

theorem renderFlush_fires (s : DrawsEffectState) (e : DrawsEvent)
    (hs : settled s) (hne : depsOf (applyEvent e s) ≠ depsOf s) :
    (renderFlush (applyEvent e s)).2 = true := by
  have hl : (applyEvent e s).lastDeps = s.lastDeps := by cases e <;> rfl
  unfold renderFlush
  rw [hl, hs, if_neg (fun hEq => hne (Option.some.injEq .. |>.mp hEq).symm)]

/-- C2 fails as stated: from a settled state on page 2 (`skip = 20`),
editing the from-date alone already starts a fetch under the edited
filter at the unchanged offset, with no search action involved. -/
theorem c2_counterexample :
    settled ⟨"euromillones", "", "", 20, some ⟨"euromillones", "", "", 20⟩⟩ ∧
    (renderFlush (applyEvent (.setFrom "2024-01-01")
        ⟨"euromillones", "", "", 20, some ⟨"euromillones", "", "", 20⟩⟩)).2
      = true ∧
    depsOf (applyEvent (.setFrom "2024-01-01")
        ⟨"euromillones", "", "", 20, some ⟨"euromillones", "", "", 20⟩⟩)
      = ⟨"euromillones", "2024-01-01", "", 20⟩ := by
  exact ⟨rfl, rfl, rfl⟩

/-- C2 (amended): from a settled state, any change to the lottery,
from-date or to-date input immediately triggers a refetch of the current
page under the edited filter — the effect re-runs because the callback's
dependency tuple changed; the explicit search action resets the offset to
0 (refetching when the offset was non-zero), and offset changes (next,
and previous when the offset is non-zero) refetch immediately. -/
theorem c2_filter_edits_refetch (s : DrawsEffectState) (v : String)
    (hs : settled s) :
    (v ≠ s.fromInput →
      (renderFlush (applyEvent (.setFrom v) s)).2 = true ∧
      depsOf (applyEvent (.setFrom v) s) = ⟨s.lottery, v, s.toInput, s.skip⟩) ∧
    (v ≠ s.toInput → (renderFlush (applyEvent (.setTo v) s)).2 = true) ∧
    (v ≠ s.lottery → (renderFlush (applyEvent (.setLottery v) s)).2 = true) ∧
    (applyEvent .search s).skip = 0 ∧
    (s.skip ≠ 0 → (renderFlush (applyEvent .search s)).2 = true) ∧
    (renderFlush (applyEvent .next s)).2 = true ∧
    (s.skip ≠ 0 → (renderFlush (applyEvent .prev s)).2 = true) := by
  refine ⟨fun hv => ⟨renderFlush_fires s _ hs ?_, rfl⟩,
    fun hv => renderFlush_fires s _ hs ?_,
    fun hv => renderFlush_fires s _ hs ?_,
    rfl,
    fun hv => renderFlush_fires s _ hs ?_,
    renderFlush_fires s _ hs ?_,
    fun hv => renderFlush_fires s _ hs ?_⟩
  · exact fun h => hv (congrArg DrawsDeps.fromInput h)
  · exact fun h => hv (congrArg DrawsDeps.toInput h)
  · exact fun h => hv (congrArg DrawsDeps.lottery h)
  · exact fun h => hv (congrArg DrawsDeps.skip h).symm
  · have h20 : (0 : Nat) < PAGE_SIZE := by decide
    exact fun h =>
      absurd (congrArg DrawsDeps.skip h) (by simp [applyEvent, depsOf]; omega)
  · exact fun h =>
      hv (by
        have := congrArg DrawsDeps.skip h
        simp [applyEvent, depsOf, PAGE_SIZE] at this
        omega)

theorem c2_filter_edits_refetch_witness :
    ("2024-01-01" : String) ≠ "" ∧
    (renderFlush (applyEvent (.setFrom "2024-01-01")
        ⟨"euromillones", "", "", 20, some ⟨"euromillones", "", "", 20⟩⟩)).2
      = true ∧
    (renderFlush (applyEvent .next
        ⟨"euromillones", "", "", 20, some ⟨"euromillones", "", "", 20⟩⟩)).2
      = true := by
  have h := c2_filter_edits_refetch
    ⟨"euromillones", "", "", 20, some ⟨"euromillones", "", "", 20⟩⟩
    "2024-01-01" rfl
  exact ⟨by decide, (h.1 (by decide)).1, h.2.2.2.2.2.1⟩

end Lottery

namespace Lottery

/-! ## The `combinacion_acta` parsers (ResultadosPage, src/unnamed/part_008)

The La Primitiva parser strips the annotations
`/\s*C\s*\(\s*\d+\s*\)/gi` and `/\s*R\s*\(\s*\d+\s*\)/gi`, splits the rest
on `/[\s\-]+/`, and separately captures the first `C(\d+)`/`R(\d+)`
match.  Every character class in the annotation pattern is disjoint from
the element that follows it, so a greedy maximal-munch scan is exactly
the regex's backtracking semantics and the leftmost match is found by
trying successive start positions. -/


/-- Tail stage of the annotation pattern: `\)` after the digits. -/
def matchClose (ds : List Char) : List Char → Option (List Char × List Char)
  | ')' :: rest => some (ds, rest)
  | _ => none

/-- Digits stage: `\d+\s*` then the close paren. -/
def matchDigits (t4 : List Char) : Option (List Char × List Char) :=
  if (t4.takeWhile isDigitChar).isEmpty then none
  else
    matchClose (t4.takeWhile isDigitChar)
      ((t4.dropWhile isDigitChar).dropWhile isSpaceChar)

/-- Open-paren stage: `\(\s*` then the digits. -/
def matchOpen : List Char → Option (List Char × List Char)
  | '(' :: t3 => matchDigits (t3.dropWhile isSpaceChar)
  | _ => none

/-- Letter stage: the case-folded letter, `\s*`, then the open paren. -/
def matchAfterSpaces (letter : Char) : List Char → Option (List Char × List Char)
  | [] => none
  | u :: t1 =>
      if lowerNat u = lowerNat letter then matchOpen (t1.dropWhile isSpaceChar)
      else none

/-- Match `\s*L\s*\(\s*(\d+)\s*\)` (case-insensitive in `L`) at the head
of `cs`; on success return the captured digits and the remainder. -/
def matchAnnotAt (letter : Char) (cs : List Char) :
    Option (List Char × List Char) :=
  matchAfterSpaces letter (cs.dropWhile isSpaceChar)

theorem length_dropWhile_le (p : Char → Bool) (l : List Char) :
    (l.dropWhile p).length ≤ l.length :=
  (List.dropWhile_sublist p).length_le

theorem matchClose_some (ds l ds2 rest : List Char)
    (h : matchClose ds l = some (ds2, rest)) :
    ds2 = ds ∧ l = ')' :: rest := by
  unfold matchClose at h
  split at h
  · obtain ⟨h1, h2⟩ := Prod.mk.injEq .. |>.mp (Option.some.injEq .. |>.mp h)
    exact ⟨h1.symm, by rw [h2]⟩
  · exact absurd h (by simp)

theorem matchDigits_rest_length (t4 ds rest : List Char)
    (h : matchDigits t4 = some (ds, rest)) : rest.length < t4.length := by
  unfold matchDigits at h
  split_ifs at h with hds
  obtain ⟨-, h2⟩ := matchClose_some _ _ _ _ h
  have l1 : rest.length + 1 ≤ (t4.dropWhile isDigitChar).length := by
    have := length_dropWhile_le isSpaceChar (t4.dropWhile isDigitChar)
    rw [h2] at this
    simpa using this
  have l2 := length_dropWhile_le isDigitChar t4
  omega

theorem matchOpen_rest_length (t2 ds rest : List Char)
    (h : matchOpen t2 = some (ds, rest)) : rest.length < t2.length := by
  unfold matchOpen at h
  split at h
  · rename_i t3
    have l1 := matchDigits_rest_length _ _ _ h
    have l2 := length_dropWhile_le isSpaceChar t3
    simp only [List.length_cons]
    omega
  · exact absurd h (by simp)

theorem matchAfterSpaces_rest_length (letter : Char) (t ds rest : List Char)
    (h : matchAfterSpaces letter t = some (ds, rest)) :
    rest.length < t.length := by
  unfold matchAfterSpaces at h
  split at h
  · exact absurd h (by simp)
  · rename_i u t1
    split_ifs at h with hu
    have l1 := matchOpen_rest_length _ _ _ h
    have l2 := length_dropWhile_le isSpaceChar t1
    simp only [List.length_cons]
    omega

theorem matchAnnotAt_rest_length (letter : Char) (cs ds rest : List Char)
    (h : matchAnnotAt letter cs = some (ds, rest)) :
    rest.length < cs.length := by
  unfold matchAnnotAt at h
  have l1 := matchAfterSpaces_rest_length letter _ _ _ h
  have l2 := length_dropWhile_le isSpaceChar cs
  omega

/-- Fuel-indexed worker for the global `replace` of one annotation
pattern: scan left to right, removing every (leftmost, non-overlapping)
match; the fuel, set to the list length, only makes the jump to the
remainder after a match structural. -/
def stripAnnotGo (letter : Char) : Nat → List Char → List Char
  | _, [] => []
  | 0, l => l
  | fuel + 1, c :: cs =>
      match matchAnnotAt letter (c :: cs) with
      | some (_, rest) => stripAnnotGo letter fuel rest
      | none => c :: stripAnnotGo letter fuel cs

/-- JS `str.replace(/\s*L\s*\(\s*\d+\s*\)/gi, '')`. -/
def stripAnnot (letter : Char) (cs : List Char) : List Char :=
  stripAnnotGo letter cs.length cs

theorem stripAnnotGo_nil (letter : Char) (fuel : Nat) :
    stripAnnotGo letter fuel [] = [] := by
  cases fuel <;> rfl

theorem stripAnnotGo_congr (letter : Char) (fuel1 : Nat) :
    ∀ (fuel2 : Nat) (cs : List Char), cs.length ≤ fuel1 →
      cs.length ≤ fuel2 →
      stripAnnotGo letter fuel1 cs = stripAnnotGo letter fuel2 cs := by
  induction fuel1 with
  | zero =>
      intro fuel2 cs h1 h2
      have : cs = [] := List.length_eq_zero.mp (Nat.le_zero.mp h1)
      subst this
      rw [stripAnnotGo_nil, stripAnnotGo_nil]
  | succ f ih =>
      intro fuel2 cs h1 h2
      cases cs with
      | nil => rw [stripAnnotGo_nil, stripAnnotGo_nil]
      | cons c cs =>
          cases fuel2 with
          | zero => simp at h2
          | succ f2 =>
              have hb : (c :: cs).length = cs.length + 1 := rfl
              rw [hb] at h1 h2
              cases hm : matchAnnotAt letter (c :: cs) with
              | some pair =>
                  obtain ⟨ds, rest⟩ := pair
                  have hlt := matchAnnotAt_rest_length letter (c :: cs) ds rest hm
                  rw [hb] at hlt
                  simp only [stripAnnotGo, hm]
                  exact ih f2 rest (by omega) (by omega)
              | none =>
                  simp only [stripAnnotGo, hm]
                  exact congrArg (c :: ·) (ih f2 cs (by omega) (by omega))

theorem stripAnnot_nil (letter : Char) : stripAnnot letter [] = [] := rfl

theorem stripAnnot_cons_match (letter c : Char) (cs ds rest : List Char)
    (h : matchAnnotAt letter (c :: cs) = some (ds, rest)) :
    stripAnnot letter (c :: cs) = stripAnnot letter rest := by
  have hlt := matchAnnotAt_rest_length letter (c :: cs) ds rest h
  unfold stripAnnot
  simp only [List.length_cons, stripAnnotGo, h]
  exact stripAnnotGo_congr letter cs.length rest.length rest
    (by simp at hlt; omega) le_rfl

theorem stripAnnot_cons_nomatch (letter c : Char) (cs : List Char)
    (h : matchAnnotAt letter (c :: cs) = none) :
    stripAnnot letter (c :: cs) = c :: stripAnnot letter cs := by
  unfold stripAnnot
  simp only [List.length_cons, stripAnnotGo, h]

/-- JS `str.match(/L\s*\(\s*(\d+)\s*\)/i)`: the captured digits of the
leftmost match (successive start positions; the leading `\s*` of the
replace pattern is absent here, which changes nothing about which digits
are captured first). -/
def findAnnot (letter : Char) : List Char → Option (List Char)
  | [] => none
  | c :: cs =>
      match matchAnnotAt letter (c :: cs) with
      | some (ds, _) => some ds
      | none => findAnnot letter cs

/-- Accumulator worker for `split(/[\s\-]+/).filter(Boolean)`: the
maximal runs of non-separator characters, `acc` holding the current run
reversed. -/
def tokensOfAux : List Char → List Char → List (List Char)
  | [], acc => if acc.isEmpty then [] else [acc.reverse]
  | c :: cs, acc =>
      if isSepChar c then
        if acc.isEmpty then tokensOfAux cs []
        else acc.reverse :: tokensOfAux cs []
      else tokensOfAux cs (c :: acc)

/-- JS `str.split(/[\s\-]+/).filter(Boolean)`. -/
def tokensOf (cs : List Char) : List (List Char) := tokensOfAux cs []

/-! The three parsers (src/unnamed/part_008 lines 216-244).  `null`,
`undefined` and (via the falsy check) the empty string short-circuit. -/

structure EuroActa where
  main : List Int
  stars : List Int
deriving DecidableEq

/-- `parseCombinacionActaEuromillones`: split, `parseInt`, drop `NaN`s,
first five are mains, next two are stars. -/
def parseCombinacionActaEuromillones (input : Option String) : EuroActa :=
  match input with
  | none => ⟨[], []⟩
  | some s =>
      if s = "" then ⟨[], []⟩
      else
        let nums := (tokensOf s.toList).filterMap parseIntToken
        ⟨nums.take 5, (nums.drop 5).take 2⟩

structure PrimitivaActa where
  main : List Int
  complementario : Option Int
  reintegro : Option Int
deriving DecidableEq

/-- `parseCombinacionActaLaPrimitiva`: strip the `C(n)`/`R(n)`
annotations, split and parse the first six numbers, and capture the first
`C(\d+)` and `R(\d+)` matches of the original string separately. -/
def parseCombinacionActaLaPrimitiva (input : Option String) : PrimitivaActa :=
  match input with
  | none => ⟨[], none, none⟩
  | some s =>
      if s = "" then ⟨[], none, none⟩
      else
        let cs := s.toList
        let without := stripAnnot 'R' (stripAnnot 'C' cs)
        let nums := (tokensOf without).filterMap parseIntToken
        ⟨nums.take 6,
          (findAnnot 'C' cs).map fun ds => (digitsToNat ds : Int),
          (findAnnot 'R' cs).map fun ds => (digitsToNat ds : Int)⟩

structure GordoActa where
  main : List Int
  clave : Option Int
deriving DecidableEq

/-- `parseCombinacionActaElGordo`: first five numbers are mains, the
sixth (when present) is the clave. -/
def parseCombinacionActaElGordo (input : Option String) : GordoActa :=
  match input with
  | none => ⟨[], none⟩
  | some s =>
      if s = "" then ⟨[], none⟩
      else
        let nums := (tokensOf s.toList).filterMap parseIntToken
        ⟨nums.take 5, nums[5]?⟩

example :
    parseCombinacionActaLaPrimitiva (some "48 - 38 - 40 - 08 - 25 - 47 C(20) R(9)")
      = ⟨[48, 38, 40, 8, 25, 47], some 20, some 9⟩ := by decide

example :
    parseCombinacionActaEuromillones (some "24-33-28-35-13-05-09")
      = ⟨[24, 33, 28, 35, 13], [5, 9]⟩ := by decide

example : parseCombinacionActaElGordo (some "1-2-3-4-5 8")
      = ⟨[1, 2, 3, 4, 5], some 8⟩ := by decide

example : parseCombinacionActaLaPrimitiva (some "R(9) 1 - 2 C(20) - 3")
      = ⟨[1, 2, 3], some 20, some 9⟩ := by decide

/-! Character-class facts used by the annotation and tokenizer lemmas. -/

theorem space_codes (c : Char) (h : isSpaceChar c = true) :
    c.toNat = 9 ∨ c.toNat = 10 ∨ c.toNat = 11 ∨ c.toNat = 12 ∨ c.toNat = 13 ∨
    c.toNat = 32 ∨ 160 ≤ c.toNat := by
  simp only [isSpaceChar, List.contains_cons, List.contains_nil, Bool.or_eq_true,
    beq_iff_eq, Bool.false_eq_true, or_false] at h
  omega

theorem digit_nonspace (c : Char) (h : isDigitChar c = true) :
    isSpaceChar c = false := by
  simp only [isDigitChar, Bool.and_eq_true, decide_eq_true_eq] at h
  cases hs : isSpaceChar c
  · rfl
  · have := space_codes c hs
    omega

theorem digit_nonsep (c : Char) (h : isDigitChar c = true) :
    isSepChar c = false := by
  simp only [isDigitChar, Bool.and_eq_true, decide_eq_true_eq] at h
  simp only [isSepChar, digit_nonspace c (by simp [isDigitChar]; omega),
    Bool.false_or, decide_eq_false_iff_not]
  omega

theorem digit_lower (c : Char) (h : isDigitChar c = true) :
    lowerNat c = c.toNat := by
  simp only [isDigitChar, Bool.and_eq_true, decide_eq_true_eq] at h
  simp only [lowerNat]
  rw [if_neg (by omega)]

theorem digit_code_range (c : Char) (h : isDigitChar c = true) :
    48 ≤ c.toNat ∧ c.toNat ≤ 57 := by
  simpa only [isDigitChar, Bool.and_eq_true, decide_eq_true_eq] using h

theorem head_dropWhile_spec (p : Char → Bool) (l : List Char) (u : Char)
    (h : (l.dropWhile p).head? = some u) : p u = false ∧ u ∈ l := by
  constructor
  · have := List.head?_dropWhile_not p l
    rw [h] at this
    exact this
  · exact (List.dropWhile_sublist p).mem (List.mem_of_mem_head? h)

/-- The annotation match fails whenever the first non-space character —
if any — is not the (case-folded) letter. -/
theorem matchAnnotAt_none (letter : Char) (cs : List Char)
    (h : ∀ u, (cs.dropWhile isSpaceChar).head? = some u →
      lowerNat u ≠ lowerNat letter) :
    matchAnnotAt letter cs = none := by
  unfold matchAnnotAt
  rcases hdw : cs.dropWhile isSpaceChar with _ | ⟨u, t1⟩
  · rfl
  · simp only [matchAfterSpaces]
    rw [if_neg (h u (by rw [hdw]; rfl))]

/-- The annotation match succeeds on a space prefix followed by the
letter, `(`, digits and `)`, consuming exactly that and capturing the
digits. -/
theorem matchAnnotAt_front_some (letter U : Char) (sp ds rest : List Char)
    (hsp : ∀ c ∈ sp, isSpaceChar c = true)
    (hU : lowerNat U = lowerNat letter) (hUns : isSpaceChar U = false)
    (hds : ds ≠ []) (hdig : ∀ c ∈ ds, isDigitChar c = true) :
    matchAnnotAt letter (sp ++ (U :: '(' :: (ds ++ ')' :: rest)))
      = some (ds, rest) := by
  have hne : (ds ++ ')' :: rest).dropWhile isSpaceChar = ds ++ ')' :: rest := by
    rcases ds with _ | ⟨d, ds2⟩
    · exact absurd rfl hds
    · rw [List.cons_append, List.dropWhile_cons_of_neg
        (by simp [digit_nonspace d (hdig d (by simp))])]
  have h4 : (ds ++ ')' :: rest).takeWhile isDigitChar = ds := by
    rw [List.takeWhile_append_of_pos hdig,
      List.takeWhile_cons_of_neg (by decide), List.append_nil]
  have h5 : (ds ++ ')' :: rest).dropWhile isDigitChar = ')' :: rest := by
    rw [List.dropWhile_append_of_pos hdig,
      List.dropWhile_cons_of_neg (by decide)]
  unfold matchAnnotAt
  rw [List.dropWhile_append_of_pos hsp,
    List.dropWhile_cons_of_neg (by simp [hUns])]
  simp only [matchAfterSpaces]
  rw [if_pos hU]
  rw [List.dropWhile_cons_of_neg (by decide)]
  simp only [matchOpen]
  rw [hne]
  unfold matchDigits
  rw [h4, h5]
  rw [if_neg (by simpa using hds)]
  rw [List.dropWhile_cons_of_neg (by decide)]
  rfl

theorem stripAnnot_spaces (letter : Char) (sp : List Char)
    (hsp : ∀ c ∈ sp, isSpaceChar c = true) :
    stripAnnot letter sp = sp := by
  induction sp with
  | nil => rfl
  | cons c sp ih =>
      have hm : matchAnnotAt letter (c :: sp) = none := by
        apply matchAnnotAt_none
        intro u hu
        rw [List.dropWhile_eq_nil_iff.mpr (by simpa using hsp)] at hu
        exact absurd hu (by simp)
      rw [stripAnnot_cons_nomatch letter c sp hm,
        ih (fun a ha => hsp a (by simp [ha]))]

theorem stripAnnot_space_front (letter c0 : Char) (sp trail : List Char)
    (hsp : ∀ c ∈ sp, isSpaceChar c = true)
    (hc0 : isSpaceChar c0 = false) (hlc0 : lowerNat c0 ≠ lowerNat letter) :
    stripAnnot letter (sp ++ c0 :: trail)
      = sp ++ stripAnnot letter (c0 :: trail) := by
  induction sp with
  | nil => simp
  | cons c sp ih =>
      have hm : matchAnnotAt letter (c :: (sp ++ c0 :: trail)) = none := by
        apply matchAnnotAt_none
        intro u hu
        have hdw : List.dropWhile isSpaceChar (c :: (sp ++ c0 :: trail))
            = c0 :: trail := by
          rw [List.dropWhile_cons_of_pos (by simp [hsp c (by simp)]),
            List.dropWhile_append_of_pos (fun a ha => hsp a (by simp [ha])),
            List.dropWhile_cons_of_neg (by simp [hc0])]
        rw [hdw] at hu
        obtain rfl : c0 = u := by simpa using hu
        exact hlc0
      rw [List.cons_append, stripAnnot_cons_nomatch letter c _ hm,
        ih (fun a ha => hsp a (by simp [ha]))]
      rfl

theorem stripAnnot_copy (letter : Char) (seg trail : List Char)
    (hsf : ∀ c ∈ seg, isSpaceChar c = false)
    (hnl : ∀ c ∈ seg, lowerNat c ≠ lowerNat letter) :
    stripAnnot letter (seg ++ trail) = seg ++ stripAnnot letter trail := by
  induction seg with
  | nil => simp
  | cons c seg ih =>
      have hm : matchAnnotAt letter (c :: (seg ++ trail)) = none := by
        apply matchAnnotAt_none
        intro u hu
        rw [List.dropWhile_cons_of_neg (by simp [hsf c (by simp)])] at hu
        obtain rfl : c = u := by simpa using hu
        exact hnl c (by simp)
      rw [List.cons_append, stripAnnot_cons_nomatch letter c _ hm,
        ih (fun a ha => hsf a (by simp [ha])) (fun a ha => hnl a (by simp [ha]))]
      rfl

theorem stripAnnot_annot_head (letter U : Char) (sp ds rest : List Char)
    (hsp : ∀ c ∈ sp, isSpaceChar c = true)
    (hU : lowerNat U = lowerNat letter) (hUns : isSpaceChar U = false)
    (hds : ds ≠ []) (hdig : ∀ c ∈ ds, isDigitChar c = true) :
    stripAnnot letter (sp ++ (U :: '(' :: (ds ++ ')' :: rest)))
      = stripAnnot letter rest := by
  have hm := matchAnnotAt_front_some letter U sp ds rest hsp hU hUns hds hdig
  rcases sp with _ | ⟨c, sp2⟩
  · rw [List.nil_append] at hm ⊢
    exact stripAnnot_cons_match letter U _ ds rest hm
  · rw [List.cons_append] at hm ⊢
    exact stripAnnot_cons_match letter c _ ds rest hm

/-! ## Symbolic acta strings

To state the La Primitiva claim "annotations anywhere", acta strings are
built from an arbitrary sequence of numeric tokens and `C(…)`/`R(…)`
annotations joined by single spaces; the annotation positions are fully
generic. -/

inductive ActaItem where
  | num (t : List Char)
  | annC (ds : List Char)
  | annR (ds : List Char)
deriving DecidableEq

def renderItem : ActaItem → List Char
  | .num t => t
  | .annC ds => 'C' :: '(' :: (ds ++ [')'])
  | .annR ds => 'R' :: '(' :: (ds ++ [')'])

def renderItems : List ActaItem → List Char
  | [] => []
  | [i] => renderItem i
  | i :: is => renderItem i ++ ' ' :: renderItems is

/-- Well-formed item: non-empty all-digit token or annotation payload. -/
def goodItem : ActaItem → Prop
  | .num t => t ≠ [] ∧ ∀ c ∈ t, isDigitChar c = true
  | .annC ds => ds ≠ [] ∧ ∀ c ∈ ds, isDigitChar c = true
  | .annR ds => ds ≠ [] ∧ ∀ c ∈ ds, isDigitChar c = true

instance : DecidablePred goodItem := fun i =>
  match i with
  | .num t => inferInstanceAs (Decidable (t ≠ [] ∧ ∀ c ∈ t, isDigitChar c = true))
  | .annC ds =>
      inferInstanceAs (Decidable (ds ≠ [] ∧ ∀ c ∈ ds, isDigitChar c = true))
  | .annR ds =>
      inferInstanceAs (Decidable (ds ≠ [] ∧ ∀ c ∈ ds, isDigitChar c = true))

def isAnnC : ActaItem → Bool
  | .annC _ => true
  | _ => false

def isAnnR : ActaItem → Bool
  | .annR _ => true
  | _ => false

def numTok : ActaItem → Option (List Char)
  | .num t => some t
  | _ => none

/-- The numeric tokens of an item sequence, in order. -/
def numToks (items : List ActaItem) : List (List Char) := items.filterMap numTok

/-- Separator-aware tail of a render: nothing after the last item, a
single space plus the rest otherwise. -/
def tailStr : List ActaItem → List Char
  | [] => []
  | i :: is => ' ' :: renderItems (i :: is)

theorem renderItems_cons (i : ActaItem) (is : List ActaItem) :
    renderItems (i :: is) = renderItem i ++ tailStr is := by
  cases is
  · simp [renderItems, tailStr]
  · rfl

theorem renderItems_cons_ne (i : ActaItem) (is : List ActaItem) (h : is ≠ []) :
    renderItems (i :: is) = renderItem i ++ ' ' :: renderItems is := by
  cases is
  · exact absurd rfl h
  · rfl

/-- What remains of a render after the global annotation `replace`,
`tgt` marking the removed items: removed items vanish together with the
separator space in front of them. -/
def strippedRender (tgt : ActaItem → Bool) (ld : Bool) : List ActaItem → List Char
  | [] => if ld then [' '] else []
  | i :: is =>
      if tgt i then (if is.isEmpty then [] else strippedRender tgt true is)
      else
        (if ld then [' '] else []) ++ renderItem i ++
          (if is.isEmpty then [] else strippedRender tgt true is)

theorem stripAnnot_renderItems (letter : Char) (tgt : ActaItem → Bool)
    (items : List ActaItem) (ld : Bool)
    (Htgt : ∀ i ∈ items, tgt i = true → ∃ U ds,
      renderItem i = U :: '(' :: (ds ++ [')']) ∧ lowerNat U = lowerNat letter ∧
      isSpaceChar U = false ∧ ds ≠ [] ∧ ∀ c ∈ ds, isDigitChar c = true)
    (Hcln : ∀ i ∈ items, tgt i = false → renderItem i ≠ [] ∧
      (∀ c ∈ renderItem i, isSpaceChar c = false) ∧
      (∀ c ∈ renderItem i, lowerNat c ≠ lowerNat letter)) :
    stripAnnot letter ((if ld then [' '] else []) ++ renderItems items)
      = strippedRender tgt ld items := by
  induction items generalizing ld with
  | nil =>
      cases ld
      · simp [renderItems, strippedRender, stripAnnot_nil]
      · simp only [renderItems, strippedRender, List.append_nil, if_true]
        exact stripAnnot_spaces letter [' '] (by decide)
  | cons i is ih =>
      have Htgt2 : ∀ j ∈ is, tgt j = true → ∃ U ds,
          renderItem j = U :: '(' :: (ds ++ [')']) ∧
          lowerNat U = lowerNat letter ∧ isSpaceChar U = false ∧ ds ≠ [] ∧
          ∀ c ∈ ds, isDigitChar c = true :=
        fun j hj => Htgt j (by simp [hj])
      have Hcln2 : ∀ j ∈ is, tgt j = false → renderItem j ≠ [] ∧
          (∀ c ∈ renderItem j, isSpaceChar c = false) ∧
          (∀ c ∈ renderItem j, lowerNat c ≠ lowerNat letter) :=
        fun j hj => Hcln j (by simp [hj])
      have htail : ∀ h2 : is ≠ [], stripAnnot letter (tailStr is)
          = strippedRender tgt true is := by
        intro h2
        rcases is with _ | ⟨j, js⟩
        · exact absurd rfl h2
        · have := ih true Htgt2 Hcln2
          simpa [tailStr] using this
      rw [renderItems_cons]
      by_cases hti : tgt i = true
      · obtain ⟨U, ds, hri, hUl, hUs, hds, hdig⟩ := Htgt i (by simp) hti
        rw [hri]
        have hassoc : (if ld then [' '] else []) ++
            ((U :: '(' :: (ds ++ [')'])) ++ tailStr is)
            = (if ld then [' '] else []) ++
              (U :: '(' :: (ds ++ ')' :: tailStr is)) := by
          simp
        rw [hassoc, stripAnnot_annot_head letter U _ ds (tailStr is)
          (by
            intro c hc
            cases ld
            · simp at hc
            · simp at hc
              subst hc
              decide) hUl hUs hds hdig]
        rcases heq : is with _ | ⟨j, js⟩
        · simp [tailStr, strippedRender, hti, stripAnnot_nil]
        · rw [← heq]
          have h2 : is ≠ [] := by rw [heq]; simp
          rw [htail h2]
          simp [strippedRender, hti, heq]
      · have hti2 : tgt i = false := by simpa using hti
        obtain ⟨hne, hsf, hnl⟩ := Hcln i (by simp) hti2
        rcases hri : renderItem i with _ | ⟨c0, ri2⟩
        · exact absurd hri hne
        · have step1 : stripAnnot letter ((if ld then [' '] else []) ++
              ((c0 :: ri2) ++ tailStr is))
              = (if ld then [' '] else []) ++
                stripAnnot letter ((c0 :: ri2) ++ tailStr is) := by
            cases ld
            · simp
            · simp only [if_true]
              rw [show ((c0 :: ri2) ++ tailStr is) = c0 :: (ri2 ++ tailStr is) by simp]
              exact stripAnnot_space_front letter c0 [' '] (ri2 ++ tailStr is)
                (by decide) (hsf c0 (by simp [hri])) (hnl c0 (by simp [hri]))
          have step2 : stripAnnot letter ((c0 :: ri2) ++ tailStr is)
              = (c0 :: ri2) ++ stripAnnot letter (tailStr is) := by
            apply stripAnnot_copy
            · intro a ha
              exact hsf a (by simp [hri, ha])
            · intro a ha
              exact hnl a (by simp [hri, ha])
          rw [step1, step2]
          rcases heq : is with _ | ⟨j, js⟩
          · simp [tailStr, strippedRender, hti2, stripAnnot_nil, hri]
          · rw [← heq]
            have h2 : is ≠ [] := by rw [heq]; simp
            rw [htail h2]
            simp [strippedRender, hti2, heq, hri]

def eraseTgt (tgt : ActaItem → Bool) (items : List ActaItem) : List ActaItem :=
  items.filter fun i => !tgt i

theorem strippedRender_all_tgt (tgt : ActaItem → Bool) (items : List ActaItem)
    (ld : Bool) (h : eraseTgt tgt items = []) (hne : items ≠ []) :
    strippedRender tgt ld items = [] := by
  induction items generalizing ld with
  | nil => exact absurd rfl hne
  | cons i is ih =>
      rcases hti : tgt i with _ | _
      · exact absurd h (by simp [eraseTgt, List.filter_cons, hti])
      · have h2 : eraseTgt tgt is = [] := by
          simpa [eraseTgt, List.filter_cons, hti] using h
        by_cases hise : is = []
        · subst hise
          simp [strippedRender, hti]
        · have hemp : is.isEmpty = false := by simpa using hise
          simp [strippedRender, hti, hemp, ih true h2 hise]

theorem strippedRender_true_of_ne (tgt : ActaItem → Bool) (items : List ActaItem)
    (h : eraseTgt tgt items ≠ []) :
    strippedRender tgt true items
      = ' ' :: renderItems (eraseTgt tgt items) := by
  induction items with
  | nil => exact absurd rfl h
  | cons i is ih =>
      rcases hti : tgt i with _ | _
      · -- kept item
        have herase : eraseTgt tgt (i :: is) = i :: eraseTgt tgt is := by
          simp [eraseTgt, List.filter_cons, hti]
        by_cases hise : is = []
        · subst hise
          simp [strippedRender, hti, herase, renderItems, eraseTgt]
        · have hemp : is.isEmpty = false := by simpa using hise
          rcases he2 : eraseTgt tgt is with _ | ⟨k, ks⟩
          · have hsr := strippedRender_all_tgt tgt is true he2 hise
            rw [herase, he2]
            simp [strippedRender, hti, hemp, hsr, renderItems]
          · have hih := ih (by rw [he2]; simp)
            rw [herase, renderItems_cons_ne i _ (by rw [he2]; simp)]
            simp [strippedRender, hti, hemp, hih, he2]
      · -- removed item
        have herase : eraseTgt tgt (i :: is) = eraseTgt tgt is := by
          simp [eraseTgt, List.filter_cons, hti]
        rw [herase] at h ⊢
        have hise : is ≠ [] := by
          intro hnil
          rw [hnil] at h
          exact h rfl
        have hemp : is.isEmpty = false := by simpa using hise
        simp [strippedRender, hti, hemp, ih h]

theorem strippedRender_false_of_ne (tgt : ActaItem → Bool) (items : List ActaItem)
    (h : eraseTgt tgt items ≠ []) :
    strippedRender tgt false items = renderItems (eraseTgt tgt items) ∨
    strippedRender tgt false items
      = ' ' :: renderItems (eraseTgt tgt items) := by
  rcases items with _ | ⟨i, is⟩
  · exact absurd rfl h
  · rcases hti : tgt i with _ | _
    · -- kept item: no leading space
      left
      have herase : eraseTgt tgt (i :: is) = i :: eraseTgt tgt is := by
        simp [eraseTgt, List.filter_cons, hti]
      by_cases hise : is = []
      · subst hise
        simp [strippedRender, hti, herase, renderItems, eraseTgt]
      · have hemp : is.isEmpty = false := by simpa using hise
        rcases he2 : eraseTgt tgt is with _ | ⟨k, ks⟩
        · have hsr := strippedRender_all_tgt tgt is true he2 hise
          rw [herase, he2]
          simp [strippedRender, hti, hemp, hsr, renderItems]
        · have hih := strippedRender_true_of_ne tgt is (by rw [he2]; simp)
          rw [herase, renderItems_cons_ne i _ (by rw [he2]; simp)]
          simp [strippedRender, hti, hemp, hih, he2]
    · -- removed item: what remains keeps a leading separator space
      right
      have herase : eraseTgt tgt (i :: is) = eraseTgt tgt is := by
        simp [eraseTgt, List.filter_cons, hti]
      rw [herase] at h ⊢
      have hise : is ≠ [] := by
        intro hnil
        rw [hnil] at h
        exact h rfl
      have hemp : is.isEmpty = false := by simpa using hise
      simp [strippedRender, hti, hemp, strippedRender_true_of_ne tgt is h]

theorem tokensOfAux_sep_front (s x : List Char)
    (h : ∀ c ∈ s, isSepChar c = true) :
    tokensOfAux (s ++ x) [] = tokensOfAux x [] := by
  induction s with
  | nil => rfl
  | cons c s ih =>
      rw [List.cons_append]
      simp only [tokensOfAux, h c (by simp), if_true, List.isEmpty_nil]
      exact ih fun a ha => h a (by simp [ha])

theorem tokensOf_sep_front (s x : List Char)
    (h : ∀ c ∈ s, isSepChar c = true) :
    tokensOf (s ++ x) = tokensOf x :=
  tokensOfAux_sep_front s x h

theorem tokensOf_all_sep (s : List Char) (h : ∀ c ∈ s, isSepChar c = true) :
    tokensOf s = [] := by
  have := tokensOf_sep_front s [] h
  rwa [List.append_nil] at this

theorem tokensOfAux_tok (t : List Char) (ht : ∀ c ∈ t, isSepChar c = false) :
    ∀ x acc, tokensOfAux (t ++ x) acc = tokensOfAux x (t.reverse ++ acc) := by
  induction t with
  | nil => intro x acc; simp
  | cons c t ih =>
      intro x acc
      rw [List.cons_append]
      simp only [tokensOfAux, ht c (by simp), Bool.false_eq_true, if_false]
      rw [ih (fun a ha => ht a (by simp [ha])) x (c :: acc)]
      simp

theorem tokensOf_tok_front (t x : List Char) (htne : t ≠ [])
    (ht : ∀ c ∈ t, isSepChar c = false)
    (hx : x = [] ∨ ∃ d x2, x = d :: x2 ∧ isSepChar d = true) :
    tokensOf (t ++ x) = t :: tokensOf x := by
  unfold tokensOf
  rw [tokensOfAux_tok t ht x [], List.append_nil]
  have hrne : t.reverse.isEmpty = false := by simpa using htne
  rcases hx with rfl | ⟨d, x2, rfl, hd⟩
  · simp [tokensOfAux, hrne]
  · simp only [tokensOfAux, hd, if_true, hrne, Bool.false_eq_true, if_false,
      List.isEmpty_nil, List.reverse_reverse]

theorem parseIntToken_digits (t : List Char) (htne : t ≠ [])
    (hdig : ∀ c ∈ t, isDigitChar c = true) :
    parseIntToken t = some ((digitsToNat t : Nat) : Int) := by
  rcases t with _ | ⟨c, t2⟩
  · exact absurd rfl htne
  · have hc := hdig c (by simp)
    have htake : (c :: t2).takeWhile isDigitChar = c :: t2 :=
      List.takeWhile_eq_self_iff.mpr (by simpa using hdig)
    unfold parseIntToken
    split
    · rename_i rest heq
      rw [show c = '+' from (List.cons.injEq .. |>.mp heq).1] at hc
      exact absurd hc (by decide)
    · rename_i rest heq
      rw [show c = '-' from (List.cons.injEq .. |>.mp heq).1] at hc
      exact absurd hc (by decide)
    · simp only [htake]
      rw [if_neg (by simp)]
      rfl

theorem filterMap_parseInt (toks : List (List Char))
    (h : ∀ t ∈ toks, t ≠ [] ∧ ∀ c ∈ t, isDigitChar c = true) :
    toks.filterMap parseIntToken
      = toks.map fun t => ((digitsToNat t : Nat) : Int) := by
  induction toks with
  | nil => rfl
  | cons t toks ih =>
      obtain ⟨h1, h2⟩ := h t (by simp)
      rw [List.filterMap_cons, parseIntToken_digits t h1 h2, List.map_cons,
        ih fun a ha => h a (by simp [ha])]

theorem findAnnot_front (letter U : Char) (p ds rest : List Char)
    (hp : ∀ c ∈ p, isSpaceChar c = false → lowerNat c ≠ lowerNat letter)
    (hU : lowerNat U = lowerNat letter) (hUs : isSpaceChar U = false)
    (hds : ds ≠ []) (hdig : ∀ c ∈ ds, isDigitChar c = true) :
    findAnnot letter (p ++ (U :: '(' :: (ds ++ ')' :: rest))) = some ds := by
  induction p with
  | nil =>
      have hm := matchAnnotAt_front_some letter U [] ds rest (by simp) hU hUs
        hds hdig
      rw [List.nil_append] at hm ⊢
      simp [findAnnot, hm]
  | cons c p ih =>
      by_cases hall : ∀ a ∈ c :: p, isSpaceChar a = true
      · have hm := matchAnnotAt_front_some letter U (c :: p) ds rest hall hU
          hUs hds hdig
        rw [List.cons_append] at hm ⊢
        simp [findAnnot, hm]
      · have hne : (c :: p).dropWhile isSpaceChar ≠ [] := by
          rw [Ne, List.dropWhile_eq_nil_iff]
          simpa using hall
        have hm : matchAnnotAt letter
            ((c :: p) ++ (U :: '(' :: (ds ++ ')' :: rest))) = none := by
          apply matchAnnotAt_none
          intro u hu
          rw [List.dropWhile_append, if_neg (by simpa using hne)] at hu
          obtain ⟨w, ws, hws⟩ := List.exists_cons_of_ne_nil hne
          rw [hws] at hu
          have hwu : w = u := by simpa using hu
          have hspec := head_dropWhile_spec isSpaceChar (c :: p) w
            (by rw [hws]; rfl)
          rw [← hwu]
          exact hp w hspec.2 hspec.1
        rw [List.cons_append] at hm ⊢
        simp only [findAnnot, hm]
        exact ih fun a ha hs => hp a (by simp [ha]) hs

theorem mem_renderItems (c : Char) (items : List ActaItem)
    (h : c ∈ renderItems items) :
    c = ' ' ∨ ∃ i ∈ items, c ∈ renderItem i := by
  induction items with
  | nil => simp [renderItems] at h
  | cons i is ih =>
      rcases is with _ | ⟨j, js⟩
      · exact Or.inr ⟨i, by simp, h⟩
      · rw [renderItems_cons_ne i _ (by simp)] at h
        rcases List.mem_append.mp h with h1 | h2
        · exact Or.inr ⟨i, by simp, h1⟩
        · rcases List.mem_cons.mp h2 with rfl | h3
          · exact Or.inl rfl
          · rcases ih h3 with h4 | ⟨k, hk, hck⟩
            · exact Or.inl h4
            · exact Or.inr ⟨k, by simp [hk], hck⟩

theorem tokensOf_render_nums (items : List ActaItem)
    (h : ∀ i ∈ items, ∃ t, i = .num t ∧ t ≠ [] ∧ ∀ c ∈ t, isDigitChar c = true) :
    tokensOf (renderItems items) = items.map renderItem := by
  induction items with
  | nil => rfl
  | cons i is ih =>
      obtain ⟨t, rfl, htne, hdig⟩ := h i (by simp)
      have htsep : ∀ c ∈ t, isSepChar c = false :=
        fun c hc => digit_nonsep c (hdig c hc)
      rcases is with _ | ⟨j, js⟩
      · show tokensOf t = [renderItem (.num t)]
        have := tokensOf_tok_front t [] htne htsep (Or.inl rfl)
        rw [List.append_nil] at this
        rw [this]
        rfl
      · rw [renderItems_cons_ne _ _ (by simp),
          show renderItem (.num t) = t from rfl,
          tokensOf_tok_front t (' ' :: renderItems (j :: js)) htne htsep
            (Or.inr ⟨' ', renderItems (j :: js), rfl, by decide⟩),
          show (' ' :: renderItems (j :: js)) = [' '] ++ renderItems (j :: js)
            from rfl,
          tokensOf_sep_front [' '] _ (by decide),
          ih fun a ha => h a (by simp [ha])]
        rfl

theorem renderItem_ne_nil (i : ActaItem) (hg : goodItem i) :
    renderItem i ≠ [] := by
  cases i with
  | num t => exact hg.1
  | annC ds => simp [renderItem]
  | annR ds => simp [renderItem]

theorem renderItem_space_free (i : ActaItem) (hg : goodItem i) :
    ∀ c ∈ renderItem i, isSpaceChar c = false := by
  cases i with
  | num t => exact fun c hc => digit_nonspace c (hg.2 c hc)
  | annC ds =>
      intro c hc
      simp only [renderItem, List.mem_cons, List.mem_append,
        List.mem_singleton, List.not_mem_nil, or_false] at hc
      rcases hc with rfl | rfl | hc | rfl
      · decide
      · decide
      · exact digit_nonspace c (hg.2 c hc)
      · decide
  | annR ds =>
      intro c hc
      simp only [renderItem, List.mem_cons, List.mem_append,
        List.mem_singleton, List.not_mem_nil, or_false] at hc
      rcases hc with rfl | rfl | hc | rfl
      · decide
      · decide
      · exact digit_nonspace c (hg.2 c hc)
      · decide

theorem renderItem_noC (i : ActaItem) (hg : goodItem i)
    (hni : isAnnC i = false) :
    ∀ c ∈ renderItem i, lowerNat c ≠ lowerNat 'C' := by
  cases i with
  | num t =>
      intro c hc
      have h1 := digit_lower c (hg.2 c hc)
      have h2 := digit_code_range c (hg.2 c hc)
      have h3 : lowerNat 'C' = 99 := by decide
      omega
  | annC ds => exact absurd hni (by simp [isAnnC])
  | annR ds =>
      intro c hc
      simp only [renderItem, List.mem_cons, List.mem_append,
        List.mem_singleton, List.not_mem_nil, or_false] at hc
      rcases hc with rfl | rfl | hc | rfl
      · decide
      · decide
      · have h1 := digit_lower c (hg.2 c hc)
        have h2 := digit_code_range c (hg.2 c hc)
        have h3 : lowerNat 'C' = 99 := by decide
        omega
      · decide

theorem renderItem_noR (i : ActaItem) (hg : goodItem i)
    (hni : isAnnR i = false) :
    ∀ c ∈ renderItem i, lowerNat c ≠ lowerNat 'R' := by
  cases i with
  | num t =>
      intro c hc
      have h1 := digit_lower c (hg.2 c hc)
      have h2 := digit_code_range c (hg.2 c hc)
      have h3 : lowerNat 'R' = 114 := by decide
      omega
  | annR ds => exact absurd hni (by simp [isAnnR])
  | annC ds =>
      intro c hc
      simp only [renderItem, List.mem_cons, List.mem_append,
        List.mem_singleton, List.not_mem_nil, or_false] at hc
      rcases hc with rfl | rfl | hc | rfl
      · decide
      · decide
      · have h1 := digit_lower c (hg.2 c hc)
        have h2 := digit_code_range c (hg.2 c hc)
        have h3 : lowerNat 'R' = 114 := by decide
        omega
      · decide

theorem renderItems_ne_nil (items : List ActaItem) (hne : items ≠ [])
    (hg : ∀ i ∈ items, goodItem i) : renderItems items ≠ [] := by
  rcases items with _ | ⟨i, is⟩
  · exact absurd rfl hne
  · rw [renderItems_cons]
    have := renderItem_ne_nil i (hg i (by simp))
    intro hh
    exact this (List.append_eq_nil.mp hh).1

theorem renderItems_append_ne (pre : List ActaItem) (i : ActaItem)
    (post : List ActaItem) (h : pre ≠ []) :
    renderItems (pre ++ i :: post)
      = renderItems pre ++ ' ' :: renderItems (i :: post) := by
  induction pre with
  | nil => exact absurd rfl h
  | cons xitem pre ih =>
      rcases pre with _ | ⟨z, zs⟩
      · rw [show ([xitem] ++ i :: post) = xitem :: i :: post from rfl,
          renderItems_cons_ne xitem _ (by simp)]
        rfl
      · rw [List.cons_append,
          renderItems_cons_ne xitem _ (by simp),
          renderItems_cons_ne xitem (z :: zs) (by simp),
          ih (by simp)]
        simp

theorem map_render_erase (items : List ActaItem) :
    (eraseTgt isAnnR (eraseTgt isAnnC items)).map renderItem
      = numToks items := by
  induction items with
  | nil => rfl
  | cons i is ih =>
      cases i with
      | num t =>
          have h1 : eraseTgt isAnnC (ActaItem.num t :: is)
              = ActaItem.num t :: eraseTgt isAnnC is := by
            simp [eraseTgt, List.filter_cons, isAnnC]
          have h2 : eraseTgt isAnnR (ActaItem.num t :: eraseTgt isAnnC is)
              = ActaItem.num t :: eraseTgt isAnnR (eraseTgt isAnnC is) := by
            simp [eraseTgt, List.filter_cons, isAnnR]
          rw [h1, h2, List.map_cons, ih]
          simp [numToks, List.filterMap_cons, numTok, renderItem]
      | annC ds =>
          have h1 : eraseTgt isAnnC (ActaItem.annC ds :: is)
              = eraseTgt isAnnC is := by
            simp [eraseTgt, List.filter_cons, isAnnC]
          rw [h1, ih]
          simp [numToks, List.filterMap_cons, numTok]
      | annR ds =>
          have h1 : eraseTgt isAnnC (ActaItem.annR ds :: is)
              = ActaItem.annR ds :: eraseTgt isAnnC is := by
            simp [eraseTgt, List.filter_cons, isAnnC]
          have h2 : eraseTgt isAnnR (ActaItem.annR ds :: eraseTgt isAnnC is)
              = eraseTgt isAnnR (eraseTgt isAnnC is) := by
            simp [eraseTgt, List.filter_cons, isAnnR]
          rw [h1, h2, ih]
          simp [numToks, List.filterMap_cons, numTok]

theorem numToks_good (items : List ActaItem) (hg : ∀ i ∈ items, goodItem i) :
    ∀ t ∈ numToks items, t ≠ [] ∧ ∀ c ∈ t, isDigitChar c = true := by
  intro t ht
  obtain ⟨i, hi, hnum⟩ := List.mem_filterMap.mp ht
  cases i with
  | num t2 =>
      obtain rfl : t2 = t := by simpa [numTok] using hnum
      exact hg _ hi
  | annC ds => exact absurd hnum (by simp [numTok])
  | annR ds => exact absurd hnum (by simp [numTok])

theorem annC_target_spec (items : List ActaItem)
    (hwf : ∀ i ∈ items, goodItem i) :
    ∀ i ∈ items, isAnnC i = true → ∃ U ds,
      renderItem i = U :: '(' :: (ds ++ [')']) ∧
      lowerNat U = lowerNat 'C' ∧ isSpaceChar U = false ∧ ds ≠ [] ∧
      ∀ c ∈ ds, isDigitChar c = true := by
  intro i hi ht
  cases i with
  | annC ds =>
      exact ⟨'C', ds, rfl, rfl, by decide, (hwf _ hi).1, (hwf _ hi).2⟩
  | num t => exact absurd ht (by simp [isAnnC])
  | annR ds => exact absurd ht (by simp [isAnnC])

theorem annR_target_spec (items : List ActaItem)
    (hwf : ∀ i ∈ items, goodItem i) :
    ∀ i ∈ items, isAnnR i = true → ∃ U ds,
      renderItem i = U :: '(' :: (ds ++ [')']) ∧
      lowerNat U = lowerNat 'R' ∧ isSpaceChar U = false ∧ ds ≠ [] ∧
      ∀ c ∈ ds, isDigitChar c = true := by
  intro i hi ht
  cases i with
  | annR ds =>
      exact ⟨'R', ds, rfl, rfl, by decide, (hwf _ hi).1, (hwf _ hi).2⟩
  | num t => exact absurd ht (by simp [isAnnR])
  | annC ds => exact absurd ht (by simp [isAnnR])

theorem cleanC_spec (items : List ActaItem) (hwf : ∀ i ∈ items, goodItem i) :
    ∀ i ∈ items, isAnnC i = false → renderItem i ≠ [] ∧
      (∀ c ∈ renderItem i, isSpaceChar c = false) ∧
      (∀ c ∈ renderItem i, lowerNat c ≠ lowerNat 'C') :=
  fun i hi hf => ⟨renderItem_ne_nil i (hwf i hi),
    renderItem_space_free i (hwf i hi), renderItem_noC i (hwf i hi) hf⟩

theorem cleanR_spec (items : List ActaItem) (hwf : ∀ i ∈ items, goodItem i) :
    ∀ i ∈ items, isAnnR i = false → renderItem i ≠ [] ∧
      (∀ c ∈ renderItem i, isSpaceChar c = false) ∧
      (∀ c ∈ renderItem i, lowerNat c ≠ lowerNat 'R') :=
  fun i hi hf => ⟨renderItem_ne_nil i (hwf i hi),
    renderItem_space_free i (hwf i hi), renderItem_noR i (hwf i hi) hf⟩

theorem tokensOf_strippedR (items1 : List ActaItem)
    (hg1 : ∀ i ∈ items1, goodItem i)
    (hnoC : ∀ i ∈ items1, isAnnC i = false)
    (h1ne : items1 ≠ []) (ld : Bool) :
    tokensOf (strippedRender isAnnR ld items1)
      = (eraseTgt isAnnR items1).map renderItem := by
  rcases he2 : eraseTgt isAnnR items1 with _ | ⟨k, ks⟩
  · rw [strippedRender_all_tgt isAnnR items1 ld he2 h1ne]
    rfl
  · rw [← he2]
    have h2ne : eraseTgt isAnnR items1 ≠ [] := by rw [he2]; simp
    have hnums : ∀ i ∈ eraseTgt isAnnR items1, ∃ t, i = .num t ∧ t ≠ [] ∧
        ∀ c ∈ t, isDigitChar c = true := by
      intro i hi
      have hmem := List.mem_of_mem_filter hi
      have hnR : isAnnR i = false := by simpa using List.of_mem_filter hi
      cases i with
      | num t => exact ⟨t, rfl, (hg1 _ hmem).1, (hg1 _ hmem).2⟩
      | annC ds => exact absurd (hnoC _ hmem) (by simp [isAnnC])
      | annR ds => exact absurd hnR (by simp [isAnnR])
    cases ld
    · rcases strippedRender_false_of_ne isAnnR items1 h2ne with hh | hh <;>
        rw [hh]
      · exact tokensOf_render_nums _ hnums
      · rw [show (' ' :: renderItems (eraseTgt isAnnR items1))
            = [' '] ++ renderItems (eraseTgt isAnnR items1) from rfl,
          tokensOf_sep_front [' '] _ (by decide)]
        exact tokensOf_render_nums _ hnums
    · rw [strippedRender_true_of_ne isAnnR items1 h2ne,
        show (' ' :: renderItems (eraseTgt isAnnR items1))
          = [' '] ++ renderItems (eraseTgt isAnnR items1) from rfl,
        tokensOf_sep_front [' '] _ (by decide)]
      exact tokensOf_render_nums _ hnums

theorem strip_tokens (items : List ActaItem) (hwf : ∀ i ∈ items, goodItem i)
    (h1ne : eraseTgt isAnnC items ≠ []) :
    tokensOf (stripAnnot 'R' (stripAnnot 'C' (renderItems items)))
      = numToks items := by
  have hC : stripAnnot 'C' (renderItems items)
      = strippedRender isAnnC false items := by
    have := stripAnnot_renderItems 'C' isAnnC items false
      (annC_target_spec items hwf) (cleanC_spec items hwf)
    simpa using this
  have hg1 : ∀ i ∈ eraseTgt isAnnC items, goodItem i :=
    fun i hi => hwf i (List.mem_of_mem_filter hi)
  have hnoC : ∀ i ∈ eraseTgt isAnnC items, isAnnC i = false :=
    fun i hi => by simpa using List.of_mem_filter hi
  rw [hC]
  rcases strippedRender_false_of_ne isAnnC items h1ne with hSR | hSR <;> rw [hSR]
  · have hR := stripAnnot_renderItems 'R' isAnnR (eraseTgt isAnnC items) false
      (annR_target_spec _ hg1) (cleanR_spec _ hg1)
    simp only [Bool.false_eq_true, if_false, List.nil_append] at hR
    rw [hR, tokensOf_strippedR _ hg1 hnoC h1ne false, map_render_erase]
  · have hR := stripAnnot_renderItems 'R' isAnnR (eraseTgt isAnnC items) true
      (annR_target_spec _ hg1) (cleanR_spec _ hg1)
    simp only [if_true] at hR
    rw [show (' ' :: renderItems (eraseTgt isAnnC items))
        = [' '] ++ renderItems (eraseTgt isAnnC items) from rfl, hR,
      tokensOf_strippedR _ hg1 hnoC h1ne true, map_render_erase]

theorem findAnnot_renderC (preC postC : List ActaItem) (x : List Char)
    (hwf : ∀ i ∈ preC ++ ActaItem.annC x :: postC, goodItem i)
    (hpre : ∀ i ∈ preC, isAnnC i = false) :
    findAnnot 'C' (renderItems (preC ++ ActaItem.annC x :: postC))
      = some x := by
  have hgx : goodItem (ActaItem.annC x) := hwf _ (by simp)
  have hnoL : ∀ c ∈ renderItems preC, isSpaceChar c = false →
      lowerNat c ≠ lowerNat 'C' := by
    intro c hc hs
    rcases mem_renderItems c preC hc with rfl | ⟨i, hi, hci⟩
    · exact absurd hs (by decide)
    · exact renderItem_noC i (hwf i (by simp [hi])) (hpre i hi) c hci
  rcases preC with _ | ⟨p0, ps⟩
  · rw [List.nil_append, renderItems_cons]
    rw [show renderItem (ActaItem.annC x) ++ tailStr postC
        = [] ++ ('C' :: '(' :: (x ++ ')' :: tailStr postC)) by
      simp [renderItem]]
    exact findAnnot_front 'C' 'C' [] x (tailStr postC) (by simp) rfl
      (by decide) hgx.1 hgx.2
  · rw [renderItems_append_ne _ _ _ (by simp),
      renderItems_cons (ActaItem.annC x) postC]
    rw [show renderItems (p0 :: ps) ++
        ' ' :: (renderItem (ActaItem.annC x) ++ tailStr postC)
        = (renderItems (p0 :: ps) ++ [' ']) ++
          ('C' :: '(' :: (x ++ ')' :: tailStr postC)) by
      simp [renderItem]]
    apply findAnnot_front 'C' 'C' _ x (tailStr postC) ?_ rfl (by decide)
      hgx.1 hgx.2
    intro c hc hs
    rcases List.mem_append.mp hc with hcl | hcr
    · exact hnoL c hcl hs
    · have hce : c = ' ' := by simpa using hcr
      subst hce
      exact absurd hs (by decide)

theorem findAnnot_renderR (preR postR : List ActaItem) (y : List Char)
    (hwf : ∀ i ∈ preR ++ ActaItem.annR y :: postR, goodItem i)
    (hpre : ∀ i ∈ preR, isAnnR i = false) :
    findAnnot 'R' (renderItems (preR ++ ActaItem.annR y :: postR))
      = some y := by
  have hgy : goodItem (ActaItem.annR y) := hwf _ (by simp)
  have hnoL : ∀ c ∈ renderItems preR, isSpaceChar c = false →
      lowerNat c ≠ lowerNat 'R' := by
    intro c hc hs
    rcases mem_renderItems c preR hc with rfl | ⟨i, hi, hci⟩
    · exact absurd hs (by decide)
    · exact renderItem_noR i (hwf i (by simp [hi])) (hpre i hi) c hci
  rcases preR with _ | ⟨p0, ps⟩
  · rw [List.nil_append, renderItems_cons]
    rw [show renderItem (ActaItem.annR y) ++ tailStr postR
        = [] ++ ('R' :: '(' :: (y ++ ')' :: tailStr postR)) by
      simp [renderItem]]
    exact findAnnot_front 'R' 'R' [] y (tailStr postR) (by simp) rfl
      (by decide) hgy.1 hgy.2
  · rw [renderItems_append_ne _ _ _ (by simp),
      renderItems_cons (ActaItem.annR y) postR]
    rw [show renderItems (p0 :: ps) ++
        ' ' :: (renderItem (ActaItem.annR y) ++ tailStr postR)
        = (renderItems (p0 :: ps) ++ [' ']) ++
          ('R' :: '(' :: (y ++ ')' :: tailStr postR)) by
      simp [renderItem]]
    apply findAnnot_front 'R' 'R' _ y (tailStr postR) ?_ rfl (by decide)
      hgy.1 hgy.2
    intro c hc hs
    rcases List.mem_append.mp hc with hcl | hcr
    · exact hnoL c hcl hs
    · have hce : c = ' ' := by simpa using hcr
      subst hce
      exact absurd hs (by decide)

theorem parseLaPrimitiva_mk (l : List Char) (hne : l ≠ []) :
    parseCombinacionActaLaPrimitiva (some (String.mk l))
      = ⟨((tokensOf (stripAnnot 'R' (stripAnnot 'C' l))).filterMap
            parseIntToken).take 6,
          (findAnnot 'C' l).map fun ds => ((digitsToNat ds : Nat) : Int),
          (findAnnot 'R' l).map fun ds => ((digitsToNat ds : Nat) : Int)⟩ := by
  have hstrne : String.mk l ≠ "" := fun hh =>
    hne (by simpa using congrArg String.data hh)
  simp only [parseCombinacionActaLaPrimitiva]
  rw [if_neg hstrne]
  rfl

/-- C3: on every La Primitiva acta made of well-formed numeric tokens
with a `C(x)` annotation and an `R(y)` annotation inserted anywhere (the
decompositions pick the first of each), the parser returns
`complementario = x` and `reintegro = y` regardless of annotation
position, and the main numbers are exactly the first (up to) six numeric
tokens with the annotation digits excluded — exactly six whenever the
string carries at least six numeric tokens, as every well-formed acta
does.  The spec's example and the missing-annotation behaviour are
included. -/
theorem c3_la_primitiva_annotations
    (items preC postC preR postR : List ActaItem) (x y : List Char)
    (hwf : ∀ i ∈ items, goodItem i)
    (hCdec : items = preC ++ ActaItem.annC x :: postC)
    (hCpre : ∀ i ∈ preC, isAnnC i = false)
    (hRdec : items = preR ++ ActaItem.annR y :: postR)
    (hRpre : ∀ i ∈ preR, isAnnR i = false) :
    parseCombinacionActaLaPrimitiva (some (String.mk (renderItems items)))
      = ⟨((numToks items).map fun t => ((digitsToNat t : Nat) : Int)).take 6,
          some ((digitsToNat x : Nat) : Int),
          some ((digitsToNat y : Nat) : Int)⟩ ∧
    (6 ≤ (numToks items).length →
      (parseCombinacionActaLaPrimitiva
          (some (String.mk (renderItems items)))).main.length = 6) ∧
    parseCombinacionActaLaPrimitiva
        (some "48 - 38 - 40 - 08 - 25 - 47 C(20) R(9)")
      = ⟨[48, 38, 40, 8, 25, 47], some 20, some 9⟩ ∧
    parseCombinacionActaLaPrimitiva (some "48 - 38 - 40 - 08 - 25 - 47 C(20)")
      = ⟨[48, 38, 40, 8, 25, 47], some 20, none⟩ := by
  have hCin : ActaItem.annC x ∈ items := by rw [hCdec]; simp
  have hRin : ActaItem.annR y ∈ items := by rw [hRdec]; simp
  have hitemsne : items ≠ [] := by
    intro h
    rw [h] at hCin
    simp at hCin
  have hsne : renderItems items ≠ [] := renderItems_ne_nil items hitemsne hwf
  have h1ne : eraseTgt isAnnC items ≠ [] :=
    List.ne_nil_of_mem (List.mem_filter.mpr ⟨hRin, by simp [isAnnC]⟩)
  have htk := strip_tokens items hwf h1ne
  have hfC : findAnnot 'C' (renderItems items) = some x := by
    rw [hCdec]
    exact findAnnot_renderC preC postC x (hCdec ▸ hwf) hCpre
  have hfR : findAnnot 'R' (renderItems items) = some y := by
    rw [hRdec]
    exact findAnnot_renderR preR postR y (hRdec ▸ hwf) hRpre
  rw [parseLaPrimitiva_mk _ hsne, htk,
    filterMap_parseInt _ (numToks_good items hwf), hfC, hfR]
  refine ⟨rfl, ?_, by decide, by decide⟩
  intro h6
  simp only [Option.map_some, List.length_take, List.length_map]
  omega

theorem c3_la_primitiva_annotations_witness :
    parseCombinacionActaLaPrimitiva (some (String.mk (renderItems
        [ActaItem.num ['4', '8'], ActaItem.annC ['2', '0'],
         ActaItem.num ['3', '8'], ActaItem.num ['4', '0'],
         ActaItem.annR ['9'], ActaItem.num ['0', '8'],
         ActaItem.num ['2', '5'], ActaItem.num ['4', '7']])))
      = ⟨[48, 38, 40, 8, 25, 47], some 20, some 9⟩ := by
  have h := c3_la_primitiva_annotations
    [ActaItem.num ['4', '8'], ActaItem.annC ['2', '0'],
     ActaItem.num ['3', '8'], ActaItem.num ['4', '0'],
     ActaItem.annR ['9'], ActaItem.num ['0', '8'],
     ActaItem.num ['2', '5'], ActaItem.num ['4', '7']]
    [ActaItem.num ['4', '8']]
    [ActaItem.num ['3', '8'], ActaItem.num ['4', '0'],
     ActaItem.annR ['9'], ActaItem.num ['0', '8'],
     ActaItem.num ['2', '5'], ActaItem.num ['4', '7']]
    [ActaItem.num ['4', '8'], ActaItem.annC ['2', '0'],
     ActaItem.num ['3', '8'], ActaItem.num ['4', '0']]
    [ActaItem.num ['0', '8'], ActaItem.num ['2', '5'],
     ActaItem.num ['4', '7']]
    ['2', '0'] ['9']
    (by decide) rfl (by decide) rfl (by decide)
  exact h.1

/-- A delimited string: each token preceded by its separator run (the
first run may be empty — no leading delimiter). -/
def renderST (pairs : List (List Char × List Char)) : List Char :=
  pairs.flatMap fun p => p.1 ++ p.2

theorem tokensOf_renderST (pairs : List (List Char × List Char))
    (trail : List Char)
    (htok : ∀ p ∈ pairs, p.2 ≠ [] ∧ ∀ c ∈ p.2, isSepChar c = false)
    (hsep : ∀ p ∈ pairs, ∀ c ∈ p.1, isSepChar c = true)
    (hinner : ∀ p ∈ pairs.tail, p.1 ≠ [])
    (htrail : ∀ c ∈ trail, isSepChar c = true) :
    tokensOf (renderST pairs ++ trail) = pairs.map fun p => p.2 := by
  induction pairs with
  | nil =>
      rw [show renderST [] ++ trail = trail from rfl]
      rw [tokensOf_all_sep trail htrail]
      rfl
  | cons p rest ih =>
      obtain ⟨s, t⟩ := p
      have hrw : renderST ((s, t) :: rest) ++ trail
          = s ++ (t ++ (renderST rest ++ trail)) := by
        simp [renderST, List.flatMap_cons]
      rw [hrw, tokensOf_sep_front s _ (hsep (s, t) (by simp))]
      have hx : (renderST rest ++ trail) = [] ∨
          ∃ d x2, renderST rest ++ trail = d :: x2 ∧ isSepChar d = true := by
        rcases rest with _ | ⟨q, qs⟩
        · rcases trail with _ | ⟨d, tr⟩
          · exact Or.inl rfl
          · exact Or.inr ⟨d, tr, by simp [renderST], htrail d (by simp)⟩
        · obtain ⟨qa, qb⟩ := q
          have hqa : qa ≠ [] := by
            have := hinner (qa, qb) (by simp)
            simpa using this
          rcases qa with _ | ⟨d, da⟩
          · exact absurd rfl hqa
          · refine Or.inr ⟨d, da ++ (qb ++ (renderST qs ++ trail)), ?_,
              hsep (d :: da, qb) (by simp) d (by simp)⟩
            simp [renderST, List.flatMap_cons]
      rw [tokensOf_tok_front t _ (htok (s, t) (by simp)).1
        (htok (s, t) (by simp)).2 hx]
      rw [ih (fun p hp => htok p (by simp [hp]))
        (fun p hp => hsep p (by simp [hp]))
        (fun p hp => hinner p (List.mem_of_mem_tail hp)) ]
      rfl

theorem parseEuromillones_mk (l : List Char) (hne : l ≠ []) :
    parseCombinacionActaEuromillones (some (String.mk l))
      = ⟨((tokensOf l).filterMap parseIntToken).take 5,
          (((tokensOf l).filterMap parseIntToken).drop 5).take 2⟩ := by
  have hstrne : String.mk l ≠ "" := fun hh =>
    hne (by simpa using congrArg String.data hh)
  simp only [parseCombinacionActaEuromillones]
  rw [if_neg hstrne]
  rfl

/-- C7: for every Euromillones acta string made of non-empty tokens
joined by non-empty runs of space/hyphen delimiters (plus an optional
trailing run) whose numeric tokens number at least seven, the parser
returns exactly the first five numeric values as mains and the next two
as stars, in original token order; absent or fully non-numeric input
yields empty arrays (the function is total, so no error is raised), and
the source's doc-comment example holds. -/
theorem c7_euromillones_token_split (pairs : List (List Char × List Char))
    (trail : List Char)
    (htok : ∀ p ∈ pairs, p.2 ≠ [] ∧ ∀ c ∈ p.2, isSepChar c = false)
    (hsep : ∀ p ∈ pairs, ∀ c ∈ p.1, isSepChar c = true)
    (hinner : ∀ p ∈ pairs.tail, p.1 ≠ [])
    (htrail : ∀ c ∈ trail, isSepChar c = true)
    (hcount : 7 ≤ ((pairs.map fun p => p.2).filterMap parseIntToken).length) :
    parseCombinacionActaEuromillones
        (some (String.mk (renderST pairs ++ trail)))
      = ⟨((pairs.map fun p => p.2).filterMap parseIntToken).take 5,
          (((pairs.map fun p => p.2).filterMap parseIntToken).drop 5).take 2⟩ ∧
    (parseCombinacionActaEuromillones
        (some (String.mk (renderST pairs ++ trail)))).main.length = 5 ∧
    (parseCombinacionActaEuromillones
        (some (String.mk (renderST pairs ++ trail)))).stars.length = 2 ∧
    parseCombinacionActaEuromillones none = ⟨[], []⟩ ∧
    parseCombinacionActaEuromillones (some "") = ⟨[], []⟩ ∧
    parseCombinacionActaEuromillones (some "sin datos") = ⟨[], []⟩ ∧
    parseCombinacionActaEuromillones (some "24-33-28-35-13-05-09")
      = ⟨[24, 33, 28, 35, 13], [5, 9]⟩ := by
  have hpne : pairs ≠ [] := by
    intro h
    rw [h] at hcount
    simp at hcount
  have hne : renderST pairs ++ trail ≠ [] := by
    rcases pairs with _ | ⟨⟨s, t⟩, rest⟩
    · exact absurd rfl hpne
    · have ht := (htok (s, t) (by simp)).1
      intro hh
      rw [show renderST ((s, t) :: rest) ++ trail
          = s ++ (t ++ (renderST rest ++ trail)) by
        simp [renderST, List.flatMap_cons]] at hh
      exact ht (List.append_eq_nil.mp ((List.append_eq_nil.mp hh).2)).1
  rw [parseEuromillones_mk _ hne,
    tokensOf_renderST pairs trail htok hsep hinner htrail]
  refine ⟨rfl, ?_, ?_, rfl, by decide, by decide, by decide⟩
  · simp only [List.length_take]
    omega
  · simp only [List.length_take, List.length_drop]
    omega

theorem c7_euromillones_token_split_witness :
    parseCombinacionActaEuromillones (some (String.mk (renderST
        [([], ['2', '4']), (['-'], ['3', '3']), (['-'], ['2', '8']),
         (['-'], ['3', '5']), (['-'], ['1', '3']), (['-'], ['0', '5']),
         (['-'], ['0', '9'])] ++ [])))
      = ⟨[24, 33, 28, 35, 13], [5, 9]⟩ := by
  have h := c7_euromillones_token_split
    [([], ['2', '4']), (['-'], ['3', '3']), (['-'], ['2', '8']),
     (['-'], ['3', '5']), (['-'], ['1', '3']), (['-'], ['0', '5']),
     (['-'], ['0', '9'])] []
    (by decide) (by decide) (by decide) (by decide) (by decide)
  exact h.1
